import Mathlib

/-!
Verification development for the matchmaking engine
(`src/data_schemas.py`, `src/rules_filter.py`, `src/scoring.py`,
`src/ranker.py`, `src/stable_matching.py`).

Conventions of the shallow embedding:
* Python `float` values are modelled as `ℚ`.  Every numeric literal in the
  embedded modules is a short decimal fraction, and the algorithms under
  study only compare, add and multiply such values, so the rational model
  is exact for the properties considered here.
* Python `dict` is modelled as an association list (`List (κ × β)`) with
  the operations `alookup` (item access / `.get`), `aupd` (item
  assignment: overwrite in place or append at the end, preserving the
  insertion order that `dict` iteration exposes) and `aerase` (`del`).
* Python string ids stay `String`; Python truthiness of a string (`if s:`)
  is `s ≠ ""`, of an optional integer (`if n:`) is `n ≠ none ∧ n ≠ some 0`,
  and of an optional list it is "present and non-empty".
* External collaborators (geodesic distance, text embeddings, the CatBoost
  model) are injected as function parameters; a provider that may raise is
  modelled with `Except Unit`.
-/

set_option maxHeartbeats 1000000
set_option linter.unusedSectionVars false

namespace Matchmaking

/-! ### Python `dict` as an association list -/

def alookup {κ β : Type} [DecidableEq κ] : List (κ × β) → κ → Option β
  | [], _ => none
  | (k, v) :: t, x => if k = x then some v else alookup t x

def aupd {κ β : Type} [DecidableEq κ] : List (κ × β) → κ → β → List (κ × β)
  | [], k, v => [(k, v)]
  | (k', v') :: t, k, v => if k' = k then (k, v) :: t else (k', v') :: aupd t k v

def aerase {κ β : Type} [DecidableEq κ] : List (κ × β) → κ → List (κ × β)
  | [], _ => []
  | (k', v') :: t, k => if k' = k then t else (k', v') :: aerase t k

def akeys {κ β : Type} (l : List (κ × β)) : List κ := l.map Prod.fst

section AssocLemmas

variable {κ β : Type} [DecidableEq κ]

theorem akeys_nil : akeys ([] : List (κ × β)) = [] := rfl

theorem akeys_cons (k : κ) (v : β) (t : List (κ × β)) :
    akeys ((k, v) :: t) = k :: akeys t := rfl

theorem alookup_nil (x : κ) : alookup ([] : List (κ × β)) x = none := rfl

theorem alookup_cons (k : κ) (v : β) (t : List (κ × β)) (x : κ) :
    alookup ((k, v) :: t) x = if k = x then some v else alookup t x := rfl

theorem alookup_aupd (l : List (κ × β)) (k : κ) (v : β) (x : κ) :
    alookup (aupd l k v) x = if k = x then some v else alookup l x := by
  induction l with
  | nil => simp [aupd, alookup]
  | cons hd t ih =>
    obtain ⟨k', v'⟩ := hd
    by_cases hk : k' = k
    · subst hk
      by_cases hx : k' = x <;> simp [aupd, alookup, hx]
    · by_cases hx : k' = x
      · subst hx
        have : ¬ k = k' := fun h => hk h.symm
        simp [aupd, alookup, hk, this]
      · simp [aupd, alookup, hk, hx, ih]

theorem mem_akeys_aupd (l : List (κ × β)) (k : κ) (v : β) (x : κ) :
    x ∈ akeys (aupd l k v) ↔ x = k ∨ x ∈ akeys l := by
  induction l with
  | nil => simp [aupd, akeys]
  | cons hd t ih =>
    obtain ⟨k', v'⟩ := hd
    by_cases hk : k' = k
    · subst hk
      rw [aupd]
      simp only [if_pos rfl, akeys_cons]
      constructor
      · rintro h; rcases List.mem_cons.mp h with h | h
        · exact Or.inl h
        · exact Or.inr (List.mem_cons_of_mem _ h)
      · rintro (h | h)
        · exact h ▸ List.mem_cons_self _ _
        · rcases List.mem_cons.mp h with h | h
          · exact h ▸ List.mem_cons_self _ _
          · exact List.mem_cons_of_mem _ h
    · rw [aupd]
      simp only [if_neg hk, akeys_cons, List.mem_cons, ih]
      tauto

theorem nodup_akeys_aupd (l : List (κ × β)) (k : κ) (v : β)
    (h : (akeys l).Nodup) : (akeys (aupd l k v)).Nodup := by
  induction l with
  | nil => simp [aupd, akeys]
  | cons hd t ih =>
    obtain ⟨k', v'⟩ := hd
    rw [akeys_cons, List.nodup_cons] at h
    by_cases hk : k' = k
    · subst hk
      have hupd : aupd ((k', v') :: t) k' v = (k', v) :: t := by simp [aupd]
      rw [hupd, akeys_cons, List.nodup_cons]
      exact h
    · rw [aupd]
      simp only [if_neg hk, akeys_cons, List.nodup_cons]
      refine ⟨?_, ih h.2⟩
      rw [mem_akeys_aupd]
      rintro (h1 | h1)
      · exact hk h1
      · exact h.1 h1

theorem alookup_isSome_mem_akeys (l : List (κ × β)) (x : κ) :
    (alookup l x).isSome ↔ x ∈ akeys l := by
  induction l with
  | nil => simp [alookup, akeys]
  | cons hd t ih =>
    obtain ⟨k, v⟩ := hd
    rw [alookup_cons, akeys_cons, List.mem_cons]
    by_cases hk : k = x
    · simp [hk]
    · have : ¬ x = k := fun h => hk h.symm
      simp [hk, this, ih]

theorem alookup_eq_none_of_not_mem (l : List (κ × β)) (x : κ)
    (h : x ∉ akeys l) : alookup l x = none := by
  cases hl : alookup l x with
  | none => rfl
  | some v =>
    exact absurd ((alookup_isSome_mem_akeys l x).mp (by simp [hl])) h

theorem mem_akeys_of_alookup_eq_some (l : List (κ × β)) (x : κ) (v : β)
    (h : alookup l x = some v) : x ∈ akeys l :=
  (alookup_isSome_mem_akeys l x).mp (by simp [h])

theorem alookup_aerase (l : List (κ × β)) (k : κ) (x : κ)
    (h : (akeys l).Nodup) :
    alookup (aerase l k) x = if k = x then none else alookup l x := by
  induction l with
  | nil => simp [aerase, alookup]
  | cons hd t ih =>
    obtain ⟨k', v'⟩ := hd
    rw [akeys_cons, List.nodup_cons] at h
    by_cases hk : k' = k
    · subst hk
      by_cases hx : k' = x
      · subst hx
        rw [aerase]
        simp only [if_pos rfl]
        simp [alookup_eq_none_of_not_mem t k' h.1]
      · rw [aerase, alookup_cons]
        simp [hx]
    · by_cases hx : k' = x
      · subst hx
        have hne : ¬ k = k' := fun h2 => hk h2.symm
        rw [aerase]
        simp [alookup, hk, hne]
      · rw [aerase]
        simp [alookup, hk, hx, ih h.2]

theorem akeys_aerase_sublist (l : List (κ × β)) (k : κ) :
    (akeys (aerase l k)).Sublist (akeys l) := by
  induction l with
  | nil => simp [aerase, akeys]
  | cons hd t ih =>
    obtain ⟨k', v'⟩ := hd
    by_cases hk : k' = k
    · rw [aerase]
      simp only [if_pos hk, akeys_cons]
      exact List.sublist_cons_self _ _
    · rw [aerase]
      simp only [if_neg hk, akeys_cons]
      exact List.Sublist.cons₂ _ ih

theorem nodup_akeys_aerase (l : List (κ × β)) (k : κ)
    (h : (akeys l).Nodup) : (akeys (aerase l k)).Nodup :=
  (akeys_aerase_sublist l k).nodup h

theorem mem_of_alookup_eq_some (l : List (κ × β)) (x : κ) (v : β)
    (h : alookup l x = some v) : (x, v) ∈ l := by
  induction l with
  | nil => simp [alookup] at h
  | cons hd t ih =>
    obtain ⟨k, v'⟩ := hd
    by_cases hk : k = x
    · subst hk
      rw [alookup_cons] at h
      simp at h
      simp [h]
    · rw [alookup_cons] at h
      simp only [if_neg hk] at h
      exact List.mem_cons_of_mem _ (ih h)

theorem alookup_eq_some_of_mem (l : List (κ × β)) (x : κ) (v : β)
    (hn : (akeys l).Nodup) (h : (x, v) ∈ l) : alookup l x = some v := by
  induction l with
  | nil => simp at h
  | cons hd t ih =>
    obtain ⟨k, v'⟩ := hd
    rw [akeys_cons, List.nodup_cons] at hn
    rcases List.mem_cons.mp h with h1 | h1
    · rw [Prod.mk.injEq] at h1
      rw [alookup_cons, if_pos h1.1.symm, h1.2]
    · have hk : ¬ k = x := by
        intro hkx
        subst hkx
        exact hn.1 (by simpa [akeys] using List.mem_map_of_mem Prod.fst h1)
      rw [alookup_cons, if_neg hk]
      exact ih hn.2 h1

end AssocLemmas

/-! ### Data schemas (`src/data_schemas.py`) -/

/-- `Gender` enum: values `"M"` and `"F"`. -/
inductive Gender
  | M
  | F
  deriving DecidableEq

/-- `Community` enum. -/
inductive Community
  | lithuanian
  | hasidic
  | sephardic
  | modern_orthodox
  | national_religious
  deriving DecidableEq

/-- `ReligiosityLevel` enum. -/
inductive ReligiosityLevel
  | very_strict
  | strict
  | moderate
  | flexible
  deriving DecidableEq

/-- `EducationLevel` enum. -/
inductive EducationLevel
  | high_school
  | seminary
  | yeshiva
  | college
  | university
  | advanced_degree
  deriving DecidableEq

/-- `HardConstraints` (pydantic model): all fields optional.
`min_age`/`max_age` are validated `ge=18, le=120`, `max_distance_km`
`ge=0, le=1000`; validation is not re-imposed here, the theorems state
any hypotheses they need explicitly. -/
structure HardConstraints where
  min_age : Option Nat
  max_age : Option Nat
  max_distance_km : Option Nat
  smoking : Option Bool
  required_communities : Option (List Community)
  required_religiosity : Option (List ReligiosityLevel)
  required_languages : Option (List String)
  deriving DecidableEq

/-- `Candidate` (pydantic model).  Fields that no embedded operation ever
reads (`source`, `marital_status`, `occupation`, `created_at` and the
encrypted contact fields) are omitted. -/
structure Candidate where
  id : String
  gender : Gender
  age : Nat
  community : Community
  religiosity_level : ReligiosityLevel
  location : String
  education : EducationLevel
  description_text : String
  languages : List String
  smoking : Bool
  deriving DecidableEq

/-- `Preferences` (pydantic model); `nice_to_have` and `updated_at` are
never read by the embedded operations and are omitted. -/
structure Preferences where
  candidate_id : String
  must_have : HardConstraints
  free_text : String
  deriving DecidableEq

/-- `MatchScore` (pydantic model); `calculated_at` omitted. -/
structure MatchScore where
  candidate_a_id : String
  candidate_b_id : String
  total_score : ℚ
  semantic_similarity : ℚ
  religious_compatibility : ℚ
  age_compatibility : ℚ
  location_compatibility : ℚ
  other_factors : ℚ
  explanation : String
  deriving DecidableEq

/-! ### Python truthiness helpers -/

/-- Truthiness of a Python `Optional[int]`: `None` and `0` are falsy. -/
def truthyNat : Option Nat → Bool
  | none => false
  | some n => n ≠ 0

/-- Truthiness of a Python `Optional[List[..]]`: `None` and `[]` are falsy. -/
def truthyList {α : Type} : Option (List α) → Bool
  | none => false
  | some l => !l.isEmpty

/-! ### `src/rules_filter.py` — `RulesFilter`

The whole coordinate lookup plus geodesic computation
(`get_coordinates` twice, then `geopy.distance.geodesic`) is the external
collaborator; it is injected as `geo : String → String → Except Unit ℚ`,
where `Except.error` stands for an exception escaping that computation. -/

/-- `RulesFilter.calculate_distance`: the `try` body delegates to the
provider; on an exception it logs and returns `0.0`. -/
def calculate_distance (geo : String → String → Except Unit ℚ)
    (location1 location2 : String) : ℚ :=
  match geo location1 location2 with
  | Except.ok d => d
  | Except.error _ => 0

/-- `RulesFilter.check_age_constraint`.  `if constraints.min_age and ...`:
a `None` (or `0`, unreachable under pydantic validation `ge=18`) bound is
skipped. -/
def check_age_constraint (candidate : Candidate) (constraints : HardConstraints) : Bool :=
  if truthyNat constraints.min_age ∧ candidate.age < constraints.min_age.getD 0 then false
  else if truthyNat constraints.max_age ∧ candidate.age > constraints.max_age.getD 0 then false
  else true

/-- `RulesFilter.check_distance_constraint`.  `if not constraints.max_distance_km`
treats `None` and `0` as "no restriction". -/
def check_distance_constraint (geo : String → String → Except Unit ℚ)
    (candidate : Candidate) (requester_location : String)
    (constraints : HardConstraints) : Bool :=
  if ¬ truthyNat constraints.max_distance_km then true
  else calculate_distance geo candidate.location requester_location ≤
    (constraints.max_distance_km.getD 0 : ℚ)

/-- `RulesFilter.check_smoking_constraint`: `if constraints.smoking is None`. -/
def check_smoking_constraint (candidate : Candidate) (constraints : HardConstraints) : Bool :=
  match constraints.smoking with
  | none => true
  | some b => candidate.smoking = b

/-- `RulesFilter.check_community_constraint`: `if not constraints.required_communities`
treats `None` and the empty list as "no restriction". -/
def check_community_constraint (candidate : Candidate) (constraints : HardConstraints) : Bool :=
  if ¬ truthyList constraints.required_communities then true
  else candidate.community ∈ constraints.required_communities.getD []

/-- `RulesFilter.check_religiosity_constraint`. -/
def check_religiosity_constraint (candidate : Candidate) (constraints : HardConstraints) : Bool :=
  if ¬ truthyList constraints.required_religiosity then true
  else candidate.religiosity_level ∈ constraints.required_religiosity.getD []

/-- `RulesFilter.check_language_constraint`: `any(lang in candidate.languages ...)`. -/
def check_language_constraint (candidate : Candidate) (constraints : HardConstraints) : Bool :=
  if ¬ truthyList constraints.required_languages then true
  else (constraints.required_languages.getD []).any
    (fun lang => lang ∈ candidate.languages)

/-- Rejection reasons produced by `is_valid_match`; each constructor stands
for the corresponding Hebrew reason string of the source (the `pass`
constructor is the final "passes all hard constraints" message). -/
inductive MatchReason
  | age_fail
  | distance_fail
  | smoking_fail
  | community_fail
  | religiosity_fail
  | language_fail
  | pass
  deriving DecidableEq

/-- `RulesFilter.is_valid_match`: runs the six checks in source order and
returns on the first failing one with its reason. -/
def is_valid_match (geo : String → String → Except Unit ℚ)
    (candidate requester : Candidate) (preferences : Preferences) :
    Bool × MatchReason :=
  let constraints := preferences.must_have
  if ¬ check_age_constraint candidate constraints then
    (false, MatchReason.age_fail)
  else if ¬ check_distance_constraint geo candidate requester.location constraints then
    (false, MatchReason.distance_fail)
  else if ¬ check_smoking_constraint candidate constraints then
    (false, MatchReason.smoking_fail)
  else if ¬ check_community_constraint candidate constraints then
    (false, MatchReason.community_fail)
  else if ¬ check_religiosity_constraint candidate constraints then
    (false, MatchReason.religiosity_fail)
  else if ¬ check_language_constraint candidate constraints then
    (false, MatchReason.language_fail)
  else
    (true, MatchReason.pass)

/-- `RulesFilter.filter_candidates`: skips the requester itself and
same-gender candidates, keeps candidates passing `is_valid_match`. -/
def filter_candidates (geo : String → String → Except Unit ℚ)
    (candidates : List Candidate) (requester : Candidate)
    (preferences : Preferences) : List (Candidate × MatchReason) :=
  candidates.foldl
    (fun acc candidate =>
      if candidate.id = requester.id then acc
      else if candidate.gender = requester.gender then acc
      else
        match is_valid_match geo candidate requester preferences with
        | (true, reason) => acc ++ [(candidate, reason)]
        | (false, _) => acc)
    []

/-! ### `src/scoring.py` — `MatchingScorer` -/

/-- `MatchingScorer.__init__` default weights. -/
def default_weights : List (String × ℚ) :=
  [("semantic_similarity", 55/100),
   ("religious_compatibility", 20/100),
   ("age_compatibility", 10/100),
   ("location_compatibility", 10/100),
   ("other_factors", 5/100)]

/-- `community_compatibility` nested dict from
`MatchingScorer._build_compatibility_matrices`. -/
def community_compatibility : List (Community × List (Community × ℚ)) :=
  [(Community.lithuanian,
    [(Community.lithuanian, 1), (Community.hasidic, 6/10),
     (Community.sephardic, 7/10), (Community.modern_orthodox, 4/10),
     (Community.national_religious, 5/10)]),
   (Community.hasidic,
    [(Community.lithuanian, 6/10), (Community.hasidic, 1),
     (Community.sephardic, 5/10), (Community.modern_orthodox, 3/10),
     (Community.national_religious, 4/10)]),
   (Community.sephardic,
    [(Community.lithuanian, 7/10), (Community.hasidic, 5/10),
     (Community.sephardic, 1), (Community.modern_orthodox, 6/10),
     (Community.national_religious, 7/10)]),
   (Community.modern_orthodox,
    [(Community.lithuanian, 4/10), (Community.hasidic, 3/10),
     (Community.sephardic, 6/10), (Community.modern_orthodox, 1),
     (Community.national_religious, 8/10)]),
   (Community.national_religious,
    [(Community.lithuanian, 5/10), (Community.hasidic, 4/10),
     (Community.sephardic, 7/10), (Community.modern_orthodox, 8/10),
     (Community.national_religious, 1)])]

/-- `religiosity_compatibility` nested dict from
`MatchingScorer._build_compatibility_matrices`. -/
def religiosity_compatibility : List (ReligiosityLevel × List (ReligiosityLevel × ℚ)) :=
  [(ReligiosityLevel.very_strict,
    [(ReligiosityLevel.very_strict, 1), (ReligiosityLevel.strict, 8/10),
     (ReligiosityLevel.moderate, 4/10), (ReligiosityLevel.flexible, 2/10)]),
   (ReligiosityLevel.strict,
    [(ReligiosityLevel.very_strict, 8/10), (ReligiosityLevel.strict, 1),
     (ReligiosityLevel.moderate, 7/10), (ReligiosityLevel.flexible, 4/10)]),
   (ReligiosityLevel.moderate,
    [(ReligiosityLevel.very_strict, 4/10), (ReligiosityLevel.strict, 7/10),
     (ReligiosityLevel.moderate, 1), (ReligiosityLevel.flexible, 8/10)]),
   (ReligiosityLevel.flexible,
    [(ReligiosityLevel.very_strict, 2/10), (ReligiosityLevel.strict, 4/10),
     (ReligiosityLevel.moderate, 8/10), (ReligiosityLevel.flexible, 1)])]

/-- `MatchingScorer.calculate_semantic_similarity`: concatenates the
description and free text of each side (separated by a space, as the
f-string does) and queries the injected embeddings provider. -/
def calculate_semantic_similarity (sim : String → String → ℚ)
    (candidate_a candidate_b : Candidate)
    (preferences_a preferences_b : Preferences) : ℚ :=
  sim (candidate_a.description_text ++ " " ++ preferences_a.free_text)
      (candidate_b.description_text ++ " " ++ preferences_b.free_text)

/-- `MatchingScorer.calculate_religious_compatibility`:
`self.community_compatibility.get(a, {}).get(b, 0.5)` for both matrices,
then the 0.6 / 0.4 weighted average. -/
def calculate_religious_compatibility (candidate_a candidate_b : Candidate) : ℚ :=
  let community_score :=
    (alookup ((alookup community_compatibility candidate_a.community).getD [])
      candidate_b.community).getD (5/10)
  let religiosity_score :=
    (alookup ((alookup religiosity_compatibility candidate_a.religiosity_level).getD [])
      candidate_b.religiosity_level).getD (5/10)
  community_score * (6/10) + religiosity_score * (4/10)

/-- `MatchingScorer.calculate_age_compatibility`: step function of the
absolute age difference. -/
def calculate_age_compatibility (candidate_a candidate_b : Candidate) : ℚ :=
  let age_diff := max candidate_a.age candidate_b.age - min candidate_a.age candidate_b.age
  if age_diff ≤ 2 then 1
  else if age_diff ≤ 5 then 8/10
  else if age_diff ≤ 8 then 6/10
  else if age_diff ≤ 12 then 4/10
  else 2/10

/-- `MatchingScorer.calculate_location_compatibility`: step function of the
distance; `calculate_distance` already absorbs provider failures, so the
outer `except` branch (returning 0.5) is unreachable and the `try` body is
the whole computation. -/
def calculate_location_compatibility (geo : String → String → Except Unit ℚ)
    (candidate_a candidate_b : Candidate) : ℚ :=
  let distance := calculate_distance geo candidate_a.location candidate_b.location
  if distance ≤ 10 then 1
  else if distance ≤ 25 then 8/10
  else if distance ≤ 50 then 6/10
  else if distance ≤ 100 then 4/10
  else 2/10

/-- `MatchingScorer.calculate_other_factors`: average of the education,
language and smoking factors (`factor_count` is always 3). -/
def calculate_other_factors (candidate_a candidate_b : Candidate) : ℚ :=
  let education_compatibility : ℚ :=
    if candidate_a.education = candidate_b.education then 1 else 7/10
  let common_languages :=
    candidate_a.languages.filter (fun lang => lang ∈ candidate_b.languages)
  let language_score : ℚ :=
    min 1 ((common_languages.dedup.length : ℚ) / (max candidate_a.languages.length 1 : ℚ))
  let smoking_score : ℚ :=
    if candidate_a.smoking = candidate_b.smoking then 1 else 3/10
  (education_compatibility + language_score + smoking_score) / 3

/-- `MatchingScorer._generate_explanation`. -/
def generate_explanation (semantic religious age location other total : ℚ) : String :=
  let explanations :=
    (if semantic ≥ 8/10 then ["תאימות גבוהה בערכים ובאישיות"]
     else if semantic ≥ 6/10 then ["תאימות טובה בערכים"]
     else ["תאימות בסיסית בערכים"]) ++
    (if religious ≥ 8/10 then ["תאימות מעולה ברקע הדתי"]
     else if religious ≥ 6/10 then ["תאימות טובה ברקע הדתי"]
     else []) ++
    (if age ≥ 8/10 then ["הפרש גיל מתאים"]
     else if age < 5/10 then ["הפרש גיל גדול יחסית"]
     else []) ++
    (if location ≥ 8/10 then ["קרבה גיאוגרפית טובה"]
     else if location < 5/10 then ["מרחק גיאוגרפי גדול"]
     else [])
  let overall :=
    if total ≥ 8/10 then "התאמה מעולה"
    else if total ≥ 6/10 then "התאמה טובה"
    else if total ≥ 4/10 then "התאמה בינונית"
    else "התאמה חלשה"
  overall ++ ": " ++ String.intercalate ", " explanations

/-- `MatchingScorer.calculate_match_score`: computes the five components
and the weighted total using the scorer's current `weights` dict; the five
weight keys are always present in any weights dict reachable from the
default (see `update_weights_preserves_keys`), so the dict access
`self.weights[..]` is modelled with a `getD 0` that is never exercised. -/
def calculate_match_score (sim : String → String → ℚ)
    (geo : String → String → Except Unit ℚ)
    (weights : List (String × ℚ))
    (candidate_a candidate_b : Candidate)
    (preferences_a preferences_b : Preferences) : MatchScore :=
  let semantic_similarity :=
    calculate_semantic_similarity sim candidate_a candidate_b preferences_a preferences_b
  let religious_compatibility :=
    calculate_religious_compatibility candidate_a candidate_b
  let age_compatibility := calculate_age_compatibility candidate_a candidate_b
  let location_compatibility :=
    calculate_location_compatibility geo candidate_a candidate_b
  let other_factors := calculate_other_factors candidate_a candidate_b
  let total_score :=
    semantic_similarity * (alookup weights "semantic_similarity").getD 0 +
    religious_compatibility * (alookup weights "religious_compatibility").getD 0 +
    age_compatibility * (alookup weights "age_compatibility").getD 0 +
    location_compatibility * (alookup weights "location_compatibility").getD 0 +
    other_factors * (alookup weights "other_factors").getD 0
  { candidate_a_id := candidate_a.id
    candidate_b_id := candidate_b.id
    total_score := total_score
    semantic_similarity := semantic_similarity
    religious_compatibility := religious_compatibility
    age_compatibility := age_compatibility
    location_compatibility := location_compatibility
    other_factors := other_factors
    explanation := generate_explanation semantic_similarity religious_compatibility
      age_compatibility location_compatibility other_factors total_score }

/-- `MatchingScorer.update_weights`: rejects a new weight dict whose values
do not sum to 1 within the 0.01 tolerance, otherwise merges it into the
current weights with `dict.update` (key-wise overwrite or insert). -/
def update_weights (weights : List (String × ℚ)) (new_weights : List (String × ℚ)) :
    Except String (List (String × ℚ)) :=
  let total_weight := (new_weights.map Prod.snd).sum
  if ¬ (|total_weight - 1| ≤ 1/100) then
    Except.error "Sum of weights must be 1.0"
  else
    Except.ok (new_weights.foldl (fun acc kv => aupd acc kv.1 kv.2) weights)

/-! ### `src/ranker.py` — `MatchingRanker`

The CatBoost model is the external collaborator: it is a field
`model : List ℚ → Except Unit ℚ` (prediction may raise).  `is_trained`
and `feature_names` mirror the instance attributes. -/

structure MatchingRanker where
  is_trained : Bool
  feature_names : List String
  model : List ℚ → Except Unit ℚ

/-- `len(text.split())`: Python splits on whitespace runs and drops empty
pieces; modelled here for space-separated text. -/
def word_count (text : String) : Nat :=
  ((text.splitOn " ").filter (fun w => !w.isEmpty)).length

/-- `MatchingRanker.extract_features`: builds the feature dict in source
order (`dict.update` and item assignments modelled with `aupd`). -/
def extract_features (candidate_a candidate_b : Candidate)
    (preferences_a preferences_b : Preferences)
    (base_scores : List (String × ℚ)) : List (String × ℚ) :=
  let features := base_scores.foldl (fun acc kv => aupd acc kv.1 kv.2) []
  let features := aupd features "age_diff"
    ((max candidate_a.age candidate_b.age - min candidate_a.age candidate_b.age : Nat) : ℚ)
  let features := aupd features "age_a" (candidate_a.age : ℚ)
  let features := aupd features "age_b" (candidate_b.age : ℚ)
  let features := aupd features "same_community"
    (if candidate_a.community = candidate_b.community then 1 else 0)
  let features := aupd features "same_religiosity"
    (if candidate_a.religiosity_level = candidate_b.religiosity_level then 1 else 0)
  let features := aupd features "same_education"
    (if candidate_a.education = candidate_b.education then 1 else 0)
  let features := aupd features "same_smoking"
    (if candidate_a.smoking = candidate_b.smoking then 1 else 0)
  let common_languages :=
    (candidate_a.languages.filter (fun lang => lang ∈ candidate_b.languages)).dedup
  let features := aupd features "common_languages_count" (common_languages.length : ℚ)
  let features := aupd features "language_overlap_ratio"
    ((common_languages.length : ℚ) / (max candidate_a.languages.length 1 : ℚ))
  let features := aupd features "description_length_a" (word_count candidate_a.description_text : ℚ)
  let features := aupd features "description_length_b" (word_count candidate_b.description_text : ℚ)
  let features := aupd features "preferences_length_a" (word_count preferences_a.free_text : ℚ)
  let features := aupd features "preferences_length_b" (word_count preferences_b.free_text : ℚ)
  let prefs_a := preferences_a.must_have
  let prefs_b := preferences_b.must_have
  let features := aupd features "age_in_range_a"
    (if truthyNat prefs_a.min_age ∧ truthyNat prefs_a.max_age then
      (if prefs_a.min_age.getD 0 ≤ candidate_b.age ∧ candidate_b.age ≤ prefs_a.max_age.getD 0
        then 1 else 0)
      else 5/10)
  let features := aupd features "age_in_range_b"
    (if truthyNat prefs_b.min_age ∧ truthyNat prefs_b.max_age then
      (if prefs_b.min_age.getD 0 ≤ candidate_a.age ∧ candidate_a.age ≤ prefs_b.max_age.getD 0
        then 1 else 0)
      else 5/10)
  let features := aupd features "community_match_a"
    (if truthyList prefs_a.required_communities then
      (if candidate_b.community ∈ prefs_a.required_communities.getD [] then 1 else 0)
      else 5/10)
  let features := aupd features "community_match_b"
    (if truthyList prefs_b.required_communities then
      (if candidate_a.community ∈ prefs_b.required_communities.getD [] then 1 else 0)
      else 5/10)
  features

/-- `MatchingRanker.predict_score`: untrained instances (and any model
failure) fall back to `base_scores.get('total_score', 0.5)`; a trained
model prediction is normalized by `max(0.0, min(1.0, score / 5.0))`. -/
def predict_score (ranker : MatchingRanker)
    (candidate_a candidate_b : Candidate)
    (preferences_a preferences_b : Preferences)
    (base_scores : List (String × ℚ)) : ℚ :=
  if ranker.is_trained = false then
    (alookup base_scores "total_score").getD (5/10)
  else
    let features :=
      extract_features candidate_a candidate_b preferences_a preferences_b base_scores
    let feature_vector := ranker.feature_names.map (fun n => (alookup features n).getD 0)
    match ranker.model feature_vector with
    | Except.ok score => max 0 (min 1 (score / 5))
    | Except.error _ => (alookup base_scores "total_score").getD (5/10)

/-! ### `src/stable_matching.py` — `StableMatching`

`sorted(.., key=.., reverse=True)` is Python's stable descending sort; it
is modelled by a stable insertion sort on the same key. -/

def insertDescBy {α : Type} (key : α → ℚ) (x : α) : List α → List α
  | [] => [x]
  | y :: t => if key x ≤ key y then y :: insertDescBy key x t else x :: y :: t

def sortDescBy {α : Type} (key : α → ℚ) (l : List α) : List α :=
  l.foldl (fun acc x => insertDescBy key x acc) []

/-- The group of `scores_by_requester[requester_id]` built by
`build_preference_lists`: scores whose `candidate_a_id` is the requester,
in input order. -/
def scores_for_requester (scores : List MatchScore) (requester_id : String) :
    List MatchScore :=
  scores.filter (fun s => decide (s.candidate_a_id = requester_id))

/-- Inner loop of one preference list: append each target id that belongs
to the opposite-side dict and is not already listed. -/
def add_targets (opposite : List (String × Candidate))
    (sorted_scores : List MatchScore) (acc : List String) : List String :=
  sorted_scores.foldl
    (fun acc s =>
      if (alookup opposite s.candidate_b_id).isSome ∧ s.candidate_b_id ∉ acc then
        acc ++ [s.candidate_b_id]
      else acc)
    acc

/-- One preference list of `StableMatching.build_preference_lists`: the
requester's scores sorted descending by `total_score`; targets are kept
only if they belong to the opposite-side dict and are not already listed. -/
def build_pref_list (scores : List MatchScore)
    (opposite : List (String × Candidate)) (person_id : String) : List String :=
  add_targets opposite
    (sortDescBy MatchScore.total_score (scores_for_requester scores person_id)) []

/-- `men = {cid: c for cid, c in candidates.items() if c.gender.value == 'M'}`. -/
def men_of (candidates : List (String × Candidate)) : List (String × Candidate) :=
  candidates.filter (fun p => decide (p.2.gender = Gender.M))

/-- `women = {cid: c for cid, c in candidates.items() if c.gender.value == 'F'}`. -/
def women_of (candidates : List (String × Candidate)) : List (String × Candidate) :=
  candidates.filter (fun p => decide (p.2.gender = Gender.F))

/-- `StableMatching.build_preference_lists`: partitions the candidate dict
by gender and builds a preference list for every man and every woman. -/
def build_preference_lists (scores : List MatchScore)
    (candidates : List (String × Candidate)) :
    List (String × List String) × List (String × List String) :=
  ((men_of candidates).map
    (fun p => (p.1, build_pref_list scores (women_of candidates) p.1)),
   (women_of candidates).map
    (fun p => (p.1, build_pref_list scores (men_of candidates) p.1)))

/-- `women_ranking[woman] = {man: i for i, man in enumerate(preferences)}`. -/
def build_ranking_aux : List String → Nat → List (String × Nat) → List (String × Nat)
  | [], _, acc => acc
  | m :: t, i, acc => build_ranking_aux t (i + 1) (aupd acc m i)

def build_ranking (prefs : List String) : List (String × Nat) :=
  build_ranking_aux prefs 0 []

/-- Rank comparison with `float('inf')` default: `none` is infinity. -/
def rank_lt : Option Nat → Option Nat → Bool
  | some a, some b => a < b
  | some _, none => true
  | none, _ => false

/-- State of the `gale_shapley` while-loop. -/
structure GSState where
  men_partner : List (String × String)
  women_partner : List (String × String)
  next_proposal : String → Nat
  free_men : List String
  iteration : Nat

/-- One iteration of the `gale_shapley` loop body, after popping `man`
from the head of the free list (`rest` is the remaining queue). -/
def gs_step (men_preferences women_preferences : List (String × List String))
    (man : String) (rest : List String) (s : GSState) : GSState :=
  let prefs := (alookup men_preferences man).getD []
  if s.next_proposal man ≥ prefs.length then
    -- the man exhausted his list: `continue` without re-queueing him
    GSState.mk s.men_partner s.women_partner s.next_proposal rest (s.iteration + 1)
  else
    let woman := prefs.getD (s.next_proposal man) ""
    let np := fun x => if x = man then s.next_proposal man + 1 else s.next_proposal x
    match alookup women_preferences woman with
    | none =>
      -- the woman is unknown: the man stays free
      GSState.mk s.men_partner s.women_partner np (rest ++ [man]) (s.iteration + 1)
    | some wprefs =>
      match alookup (build_ranking wprefs) man with
      | none =>
        GSState.mk s.men_partner s.women_partner np (rest ++ [man]) (s.iteration + 1)
      | some new_rank =>
        match alookup s.women_partner woman with
        | none =>
          -- the woman is free: match
          GSState.mk (aupd s.men_partner man woman) (aupd s.women_partner woman man)
            np rest (s.iteration + 1)
        | some current_partner =>
          if rank_lt (some new_rank) (alookup (build_ranking wprefs) current_partner) then
            -- the new man is preferred: displace the current partner
            GSState.mk (aerase (aupd s.men_partner man woman) current_partner)
              (aupd s.women_partner woman man)
              np (rest ++ [current_partner]) (s.iteration + 1)
          else
            GSState.mk s.men_partner s.women_partner np (rest ++ [man]) (s.iteration + 1)

/-- The `while free_men and iteration < max_iterations` loop; the fuel is
the remaining number of permitted iterations. -/
def gs_loop (men_preferences women_preferences : List (String × List String)) :
    Nat → GSState → GSState
  | 0, s => s
  | fuel + 1, s =>
    match s.free_men with
    | [] => s
    | man :: rest =>
      gs_loop men_preferences women_preferences fuel
        (gs_step men_preferences women_preferences man rest s)

def gs_initial (men_preferences : List (String × List String)) : GSState :=
  GSState.mk [] [] (fun _ => 0) (akeys men_preferences) 0

/-- The state in which `StableMatching.gale_shapley` leaves its loop:
`max_iterations = len(men_preferences) * len(women_preferences)`. -/
def gs_final (men_preferences women_preferences : List (String × List String)) : GSState :=
  gs_loop men_preferences women_preferences
    (men_preferences.length * women_preferences.length)
    (gs_initial men_preferences)

/-- `StableMatching.gale_shapley`: returns only `men_partner` (there is no
convergence flag in the return value). -/
def gale_shapley (men_preferences women_preferences : List (String × List String)) :
    List (String × String) :=
  (gs_final men_preferences women_preferences).men_partner

/-- `score_lookup` dict comprehension of `find_stable_matches`. -/
def score_lookup_dict (filtered : List MatchScore) : List ((String × String) × ℚ) :=
  filtered.foldl
    (fun acc s => aupd acc (s.candidate_a_id, s.candidate_b_id) s.total_score) []

/-- Score attached to one returned match: forward lookup with default 0,
retried in the reverse direction when it yielded `0.0`. -/
def match_score_of (filtered : List MatchScore) (man_id woman_id : String) : ℚ :=
  let lk := score_lookup_dict filtered
  let score := (alookup lk (man_id, woman_id)).getD 0
  if score = 0 then (alookup lk (woman_id, man_id)).getD 0 else score

/-- `StableMatching.find_stable_matches`. -/
def find_stable_matches (scores : List MatchScore)
    (candidates : List (String × Candidate)) (min_score : ℚ) :
    List (String × String × ℚ) :=
  let filtered := scores.filter (fun s => decide (min_score ≤ s.total_score))
  if filtered.isEmpty then []
  else
    let prefs := build_preference_lists filtered candidates
    if prefs.1.isEmpty ∨ prefs.2.isEmpty then []
    else
      let ms := gale_shapley prefs.1 prefs.2
      sortDescBy (fun t => t.2.2)
        (ms.map (fun mw => (mw.1, mw.2, match_score_of filtered mw.1 mw.2)))

/-- `match_dict` of `validate_stability`: both directions of every match. -/
def match_dict_of (ms : List (String × String × ℚ)) : List (String × String) :=
  ms.foldl (fun acc t => aupd (aupd acc t.1 t.2.1) t.2.1 t.1) []

/-- `score_dict` of `validate_stability`: both directions of every score. -/
def score_dict_of (scores : List MatchScore) : List ((String × String) × ℚ) :=
  scores.foldl
    (fun acc s =>
      aupd (aupd acc (s.candidate_a_id, s.candidate_b_id) s.total_score)
        (s.candidate_b_id, s.candidate_a_id) s.total_score)
    []

/-- The per-score stability check of `validate_stability` (`true` means the
loop does not return `False` on this score).  The guard
`if current_partner_a and current_partner_b` tests Python truthiness of the
partner id strings, i.e. non-emptiness, since presence in the dict was
already established. -/
def score_ok (md : List (String × String)) (sd : List ((String × String) × ℚ))
    (s : MatchScore) : Bool :=
  match alookup md s.candidate_a_id, alookup md s.candidate_b_id with
  | some pa, some pb =>
    if pa = s.candidate_b_id then true
    else if pa ≠ "" ∧ pb ≠ "" then
      !(decide ((alookup sd (s.candidate_a_id, pa)).getD 0 < s.total_score) &&
        decide ((alookup sd (s.candidate_b_id, pb)).getD 0 < s.total_score))
    else true
  | _, _ => true

/-- `StableMatching.validate_stability`. -/
def validate_stability (ms : List (String × String × ℚ))
    (scores : List MatchScore) : Bool :=
  scores.all (score_ok (match_dict_of ms) (score_dict_of scores))

/-! ### Lemmas about the stable sort -/

section SortLemmas

variable {α : Type} (key : α → ℚ)

theorem insertDescBy_perm (x : α) (l : List α) :
    (insertDescBy key x l).Perm (x :: l) := by
  induction l with
  | nil => simp [insertDescBy]
  | cons y t ih =>
    rw [insertDescBy]
    by_cases h : key x ≤ key y
    · simp only [if_pos h]
      exact (List.Perm.cons y ih).trans (List.Perm.swap x y t)
    · simp only [if_neg h]
      exact List.Perm.refl _

theorem mem_insertDescBy (x z : α) (l : List α) :
    z ∈ insertDescBy key x l ↔ z = x ∨ z ∈ l := by
  rw [(insertDescBy_perm key x l).mem_iff]
  simp

theorem insertDescBy_pairwise (x : α) (l : List α)
    (h : l.Pairwise (fun a b => key b ≤ key a)) :
    (insertDescBy key x l).Pairwise (fun a b => key b ≤ key a) := by
  induction l with
  | nil => simp [insertDescBy]
  | cons y t ih =>
    rw [List.pairwise_cons] at h
    rw [insertDescBy]
    by_cases hxy : key x ≤ key y
    · simp only [if_pos hxy]
      rw [List.pairwise_cons]
      constructor
      · intro z hz
        rcases (mem_insertDescBy key x z t).mp hz with hz | hz
        · exact hz ▸ hxy
        · exact h.1 z hz
      · exact ih h.2
    · simp only [if_neg hxy]
      rw [List.pairwise_cons]
      constructor
      · intro z hz
        rcases List.mem_cons.mp hz with hz | hz
        · exact hz ▸ le_of_lt (lt_of_not_le hxy)
        · exact le_trans (h.1 z hz) (le_of_lt (lt_of_not_le hxy))
      · rw [List.pairwise_cons]
        exact ⟨h.1, h.2⟩

theorem sortDescBy_foldl_perm (l : List α) (acc : List α) :
    (l.foldl (fun acc x => insertDescBy key x acc) acc).Perm (acc ++ l) := by
  induction l generalizing acc with
  | nil => simp
  | cons x t ih =>
    rw [List.foldl_cons]
    have h1 := ih (insertDescBy key x acc)
    have h2 : (insertDescBy key x acc ++ t).Perm ((x :: acc) ++ t) :=
      (insertDescBy_perm key x acc).append_right t
    have h3 : ((x :: acc) ++ t).Perm (acc ++ x :: t) := by
      simpa using List.perm_middle.symm
    exact (h1.trans h2).trans h3

theorem sortDescBy_perm (l : List α) : (sortDescBy key l).Perm l := by
  simpa using sortDescBy_foldl_perm key l []

theorem mem_sortDescBy (l : List α) (x : α) : x ∈ sortDescBy key l ↔ x ∈ l :=
  (sortDescBy_perm key l).mem_iff

theorem sortDescBy_foldl_pairwise (l : List α) (acc : List α)
    (h : acc.Pairwise (fun a b => key b ≤ key a)) :
    (l.foldl (fun acc x => insertDescBy key x acc) acc).Pairwise
      (fun a b => key b ≤ key a) := by
  induction l generalizing acc with
  | nil => exact h
  | cons x t ih => exact ih _ (insertDescBy_pairwise key x acc h)

theorem sortDescBy_pairwise (l : List α) :
    (sortDescBy key l).Pairwise (fun a b => key b ≤ key a) :=
  sortDescBy_foldl_pairwise key l [] (by simp)

end SortLemmas

/-! ### Lemmas about `build_ranking` -/

/-- Index of the first occurrence, used to describe `build_ranking`. -/
def rank_in : List String → String → Option Nat
  | [], _ => none
  | p :: t, m => if p = m then some 0 else (rank_in t m).map (· + 1)

theorem rank_in_isSome_of_mem (prefs : List String) (x : String)
    (h : x ∈ prefs) : (rank_in prefs x).isSome := by
  induction prefs with
  | nil => simp at h
  | cons p t ih =>
    rw [rank_in]
    by_cases hp : p = x
    · simp [hp]
    · rcases List.mem_cons.mp h with h1 | h1
      · exact absurd h1.symm hp
      · rw [if_neg hp]
        have hs := ih h1
        cases hr : rank_in t x with
        | none => rw [hr] at hs; simp at hs
        | some r => simp [hr]

theorem rank_in_some_get (prefs : List String) (x : String) (r : Nat)
    (h : rank_in prefs x = some r) :
    ∃ hr : r < prefs.length, prefs.get ⟨r, hr⟩ = x := by
  induction prefs generalizing r with
  | nil => simp [rank_in] at h
  | cons p t ih =>
    rw [rank_in] at h
    by_cases hp : p = x
    · rw [if_pos hp] at h
      obtain rfl : (0 : Nat) = r := by simpa using h
      exact ⟨by simp, hp⟩
    · rw [if_neg hp] at h
      rcases Option.map_eq_some'.mp h with ⟨r0, hr0, hr0e⟩
      obtain ⟨hlt, hget⟩ := ih r0 hr0
      subst hr0e
      refine ⟨by simpa using Nat.succ_lt_succ hlt, ?_⟩
      simpa using hget

theorem rank_in_eq_none_of_not_mem (prefs : List String) (x : String)
    (h : x ∉ prefs) : rank_in prefs x = none := by
  cases hr : rank_in prefs x with
  | none => rfl
  | some r =>
    obtain ⟨hlt, hget⟩ := rank_in_some_get prefs x r hr
    exact absurd (hget ▸ List.get_mem prefs r hlt) h

theorem build_ranking_aux_lookup (prefs : List String) (i : Nat)
    (acc : List (String × Nat)) (x : String)
    (hnd : prefs.Nodup) (hdis : ∀ y ∈ prefs, y ∉ akeys acc) :
    alookup (build_ranking_aux prefs i acc) x =
      match rank_in prefs x with
      | some r => some (i + r)
      | none => alookup acc x := by
  induction prefs generalizing i acc with
  | nil => simp [build_ranking_aux, rank_in]
  | cons p t ih =>
    rw [build_ranking_aux]
    have hnd' : t.Nodup := hnd.of_cons
    have hpnot : p ∉ t := (List.nodup_cons.mp hnd).1
    have hdis' : ∀ y ∈ t, y ∉ akeys (aupd acc p i) := by
      intro y hy hmem
      rcases (mem_akeys_aupd acc p i y).mp hmem with h1 | h1
      · exact hpnot (h1 ▸ hy)
      · exact hdis y (List.mem_cons_of_mem _ hy) h1
    rw [ih (i + 1) (aupd acc p i) hnd' hdis']
    by_cases hp : p = x
    · subst hp
      have hhead : rank_in (p :: t) p = some 0 := by
        rw [rank_in]; simp
      rw [rank_in_eq_none_of_not_mem t p hpnot, hhead]
      simp [alookup_aupd]
    · have hcons : rank_in (p :: t) x = (rank_in t x).map (· + 1) := by
        rw [rank_in, if_neg hp]
      rw [hcons]
      cases hr : rank_in t x with
      | none =>
        simp only [Option.map_none']
        rw [alookup_aupd]
        simp [hp]
      | some r =>
        simp only [Option.map_some', Option.some.injEq]
        omega

theorem build_ranking_lookup (prefs : List String) (x : String)
    (hnd : prefs.Nodup) :
    alookup (build_ranking prefs) x = rank_in prefs x := by
  rw [build_ranking, build_ranking_aux_lookup prefs 0 [] x hnd (by simp [akeys])]
  cases h : rank_in prefs x <;> simp [alookup]

/-! ### Lemmas about `add_targets` and `build_pref_list` -/

theorem add_targets_cons (opposite : List (String × Candidate)) (s : MatchScore)
    (t : List MatchScore) (acc : List String) :
    add_targets opposite (s :: t) acc =
      add_targets opposite t
        (if (alookup opposite s.candidate_b_id).isSome ∧ s.candidate_b_id ∉ acc then
          acc ++ [s.candidate_b_id] else acc) := rfl

theorem mem_add_targets (opposite : List (String × Candidate))
    (ss : List MatchScore) (acc : List String) (x : String) :
    x ∈ add_targets opposite ss acc ↔
      x ∈ acc ∨ ∃ s ∈ ss, s.candidate_b_id = x ∧ (alookup opposite x).isSome := by
  induction ss generalizing acc with
  | nil => simp [add_targets]
  | cons s t ih =>
    rw [add_targets_cons]
    by_cases hc : (alookup opposite s.candidate_b_id).isSome ∧ s.candidate_b_id ∉ acc
    · rw [if_pos hc, ih]
      constructor
      · rintro (hx | ⟨s2, hs2, hbx, hsome⟩)
        · rcases List.mem_append.mp hx with hx | hx
          · exact Or.inl hx
          · have hxb : x = s.candidate_b_id := by simpa using hx
            exact Or.inr ⟨s, List.mem_cons_self _ _, hxb.symm, hxb ▸ hc.1⟩
        · exact Or.inr ⟨s2, List.mem_cons_of_mem _ hs2, hbx, hsome⟩
      · rintro (hx | ⟨s2, hs2, hbx, hsome⟩)
        · exact Or.inl (List.mem_append_left _ hx)
        · rcases List.mem_cons.mp hs2 with h2 | h2
          · subst h2
            exact Or.inl (List.mem_append_right _ (by simp [hbx]))
          · exact Or.inr ⟨s2, h2, hbx, hsome⟩
    · rw [if_neg hc, ih]
      constructor
      · rintro (hx | ⟨s2, hs2, hbx, hsome⟩)
        · exact Or.inl hx
        · exact Or.inr ⟨s2, List.mem_cons_of_mem _ hs2, hbx, hsome⟩
      · rintro (hx | ⟨s2, hs2, hbx, hsome⟩)
        · exact Or.inl hx
        · rcases List.mem_cons.mp hs2 with h2 | h2
          · subst h2
            subst hbx
            rcases not_and_or.mp hc with h1 | h1
            · exact absurd hsome h1
            · exact Or.inl (not_not.mp h1)
          · exact Or.inr ⟨s2, h2, hbx, hsome⟩

theorem nodup_add_targets (opposite : List (String × Candidate))
    (ss : List MatchScore) (acc : List String) (h : acc.Nodup) :
    (add_targets opposite ss acc).Nodup := by
  induction ss generalizing acc with
  | nil => exact h
  | cons s t ih =>
    rw [add_targets_cons]
    by_cases hc : (alookup opposite s.candidate_b_id).isSome ∧ s.candidate_b_id ∉ acc
    · rw [if_pos hc]
      refine ih _ ?_
      rw [List.nodup_append]
      exact ⟨h, List.nodup_singleton _, by simpa using fun hmem => hc.2 hmem⟩
    · rw [if_neg hc]
      exact ih _ h

theorem add_targets_pairwise (opposite : List (String × Candidate)) (f : String → ℚ)
    (ss : List MatchScore) (acc : List String)
    (hss : ss.Pairwise (fun a b => b.total_score ≤ a.total_score))
    (hkey : ∀ s ∈ ss, s.total_score = f s.candidate_b_id)
    (hacc : acc.Pairwise (fun a b => f b ≤ f a))
    (hglue : ∀ a ∈ acc, ∀ s ∈ ss, s.total_score ≤ f a) :
    (add_targets opposite ss acc).Pairwise (fun a b => f b ≤ f a) := by
  induction ss generalizing acc with
  | nil => exact hacc
  | cons s t ih =>
    rw [List.pairwise_cons] at hss
    rw [add_targets_cons]
    by_cases hc : (alookup opposite s.candidate_b_id).isSome ∧ s.candidate_b_id ∉ acc
    · rw [if_pos hc]
      refine ih _ hss.2 (fun s2 hs2 => hkey s2 (List.mem_cons_of_mem _ hs2)) ?_ ?_
      · rw [List.pairwise_append]
        refine ⟨hacc, List.pairwise_singleton _ _, ?_⟩
        intro a ha b hb
        have hb2 : b = s.candidate_b_id := by simpa using hb
        subst hb2
        rw [← hkey s (List.mem_cons_self _ _)]
        exact hglue a ha s (List.mem_cons_self _ _)
      · intro a ha s2 hs2
        rcases List.mem_append.mp ha with ha | ha
        · exact hglue a ha s2 (List.mem_cons_of_mem _ hs2)
        · have ha2 : a = s.candidate_b_id := by simpa using ha
          subst ha2
          rw [← hkey s (List.mem_cons_self _ _)]
          exact hss.1 s2 hs2
    · rw [if_neg hc]
      exact ih _ hss.2 (fun s2 hs2 => hkey s2 (List.mem_cons_of_mem _ hs2)) hacc
        (fun a ha s2 hs2 => hglue a ha s2 (List.mem_cons_of_mem _ hs2))

theorem mem_scores_for_requester (scores : List MatchScore) (pid : String)
    (s : MatchScore) :
    s ∈ scores_for_requester scores pid ↔ s ∈ scores ∧ s.candidate_a_id = pid := by
  simp [scores_for_requester, List.mem_filter]

theorem mem_build_pref_list (scores : List MatchScore)
    (opposite : List (String × Candidate)) (pid : String) (x : String) :
    x ∈ build_pref_list scores opposite pid ↔
      ∃ s ∈ scores, s.candidate_a_id = pid ∧ s.candidate_b_id = x ∧
        (alookup opposite x).isSome := by
  rw [build_pref_list, mem_add_targets]
  constructor
  · rintro (hx | ⟨s, hs, hbx, hsome⟩)
    · simp at hx
    · rw [mem_sortDescBy, mem_scores_for_requester] at hs
      exact ⟨s, hs.1, hs.2, hbx, hbx ▸ hsome⟩
  · rintro ⟨s, hs, ha, hb, hsome⟩
    refine Or.inr ⟨s, ?_, hb, hsome⟩
    rw [mem_sortDescBy, mem_scores_for_requester]
    exact ⟨hs, ha⟩

theorem nodup_build_pref_list (scores : List MatchScore)
    (opposite : List (String × Candidate)) (pid : String) :
    (build_pref_list scores opposite pid).Nodup :=
  nodup_add_targets _ _ _ (List.nodup_nil)

theorem build_pref_list_pairwise (scores : List MatchScore)
    (opposite : List (String × Candidate)) (pid : String) (f : String → ℚ)
    (hkey : ∀ s ∈ scores, s.candidate_a_id = pid → s.total_score = f s.candidate_b_id) :
    (build_pref_list scores opposite pid).Pairwise (fun a b => f b ≤ f a) := by
  refine add_targets_pairwise opposite f _ [] (sortDescBy_pairwise _ _) ?_
    (List.Pairwise.nil) (by simp)
  intro s hs
  rw [mem_sortDescBy, mem_scores_for_requester] at hs
  exact hkey s hs.1 hs.2

/-! ### Lemmas about `match_dict_of` -/

/-- All ids (both columns) of a match triple list, in order. -/
def ids_of (ms : List (String × String × ℚ)) : List String :=
  ms.bind (fun t => [t.1, t.2.1])

/-- First entry of the triple list containing `x` in either column, giving
the other column. -/
def find_partner : List (String × String × ℚ) → String → Option String
  | [], _ => none
  | t :: r, x =>
    if t.1 = x then some t.2.1
    else if t.2.1 = x then some t.1
    else find_partner r x

theorem ids_of_nil : ids_of [] = [] := rfl

theorem ids_of_cons (t : String × String × ℚ) (r : List (String × String × ℚ)) :
    ids_of (t :: r) = t.1 :: t.2.1 :: ids_of r := rfl

theorem mem_ids_of_fst (ms : List (String × String × ℚ)) (e : String × String × ℚ)
    (h : e ∈ ms) : e.1 ∈ ids_of ms := by
  induction ms with
  | nil => simp at h
  | cons t r ih =>
    rw [ids_of_cons]
    rcases List.mem_cons.mp h with h1 | h1
    · subst h1; exact List.mem_cons_self _ _
    · exact List.mem_cons_of_mem _ (List.mem_cons_of_mem _ (ih h1))

theorem mem_ids_of_snd (ms : List (String × String × ℚ)) (e : String × String × ℚ)
    (h : e ∈ ms) : e.2.1 ∈ ids_of ms := by
  induction ms with
  | nil => simp at h
  | cons t r ih =>
    rw [ids_of_cons]
    rcases List.mem_cons.mp h with h1 | h1
    · subst h1; exact List.mem_cons_of_mem _ (List.mem_cons_self _ _)
    · exact List.mem_cons_of_mem _ (List.mem_cons_of_mem _ (ih h1))

theorem find_partner_none_of_not_mem (ms : List (String × String × ℚ)) (x : String)
    (h : x ∉ ids_of ms) : find_partner ms x = none := by
  induction ms with
  | nil => rfl
  | cons t r ih =>
    rw [ids_of_cons] at h
    rw [find_partner]
    have h1 : ¬ t.1 = x := fun he => h (he ▸ List.mem_cons_self _ _)
    have h2 : ¬ t.2.1 = x := fun he =>
      h (he ▸ List.mem_cons_of_mem _ (List.mem_cons_self _ _))
    rw [if_neg h1, if_neg h2]
    exact ih (fun hm => h (List.mem_cons_of_mem _ (List.mem_cons_of_mem _ hm)))

theorem match_dict_foldl_not_mem (ms : List (String × String × ℚ))
    (acc : List (String × String)) (x : String) (h : x ∉ ids_of ms) :
    alookup (ms.foldl (fun acc t => aupd (aupd acc t.1 t.2.1) t.2.1 t.1) acc) x =
      alookup acc x := by
  induction ms generalizing acc with
  | nil => rfl
  | cons t r ih =>
    rw [ids_of_cons] at h
    have h1 : ¬ t.1 = x := fun he => h (he ▸ List.mem_cons_self _ _)
    have h2 : ¬ t.2.1 = x := fun he =>
      h (he ▸ List.mem_cons_of_mem _ (List.mem_cons_self _ _))
    rw [List.foldl_cons,
      ih _ (fun hm => h (List.mem_cons_of_mem _ (List.mem_cons_of_mem _ hm))),
      alookup_aupd, if_neg h2, alookup_aupd, if_neg h1]

theorem match_dict_lookup_aux (ms : List (String × String × ℚ))
    (acc : List (String × String)) (x : String) (h : (ids_of ms).Nodup) :
    alookup (ms.foldl (fun acc t => aupd (aupd acc t.1 t.2.1) t.2.1 t.1) acc) x =
      match find_partner ms x with
      | some p => some p
      | none => alookup acc x := by
  induction ms generalizing acc with
  | nil => simp [find_partner]
  | cons t r ih =>
    rw [ids_of_cons, List.nodup_cons] at h
    obtain ⟨hn1, h2⟩ := h
    rw [List.nodup_cons] at h2
    obtain ⟨hn2, hnr⟩ := h2
    have hne : ¬ t.1 = t.2.1 := fun he => hn1 (he ▸ List.mem_cons_self _ _)
    rw [List.foldl_cons]
    by_cases hx1 : t.1 = x
    · subst hx1
      have hnotr : t.1 ∉ ids_of r := fun hm => hn1 (List.mem_cons_of_mem _ hm)
      rw [match_dict_foldl_not_mem r _ t.1 hnotr]
      have hfp : find_partner (t :: r) t.1 = some t.2.1 := by
        rw [find_partner, if_pos rfl]
      rw [hfp, alookup_aupd, if_neg (fun he => hne he.symm), alookup_aupd, if_pos rfl]
    · by_cases hx2 : t.2.1 = x
      · subst hx2
        rw [match_dict_foldl_not_mem r _ t.2.1 hn2]
        have hfp : find_partner (t :: r) t.2.1 = some t.1 := by
          rw [find_partner, if_neg hne, if_pos rfl]
        rw [hfp, alookup_aupd, if_pos rfl]
      · rw [ih _ hnr]
        have hfp : find_partner (t :: r) x = find_partner r x := by
          rw [find_partner, if_neg hx1, if_neg hx2]
        rw [hfp]
        cases hr : find_partner r x with
        | some p => rfl
        | none =>
          rw [alookup_aupd, if_neg hx2, alookup_aupd, if_neg hx1]

theorem match_dict_lookup (ms : List (String × String × ℚ)) (x : String)
    (h : (ids_of ms).Nodup) :
    alookup (match_dict_of ms) x = find_partner ms x := by
  rw [match_dict_of, match_dict_lookup_aux ms [] x h]
  cases hr : find_partner ms x <;> simp [alookup]

theorem find_partner_some_mem (ms : List (String × String × ℚ)) (x p : String)
    (h : find_partner ms x = some p) :
    (∃ c, (x, p, c) ∈ ms) ∨ (∃ c, (p, x, c) ∈ ms) := by
  induction ms with
  | nil => simp [find_partner] at h
  | cons t r ih =>
    rw [find_partner] at h
    by_cases hx1 : t.1 = x
    · rw [if_pos hx1] at h
      obtain rfl : t.2.1 = p := by simpa using h
      exact Or.inl ⟨t.2.2, by rw [← hx1]; simp⟩
    · rw [if_neg hx1] at h
      by_cases hx2 : t.2.1 = x
      · rw [if_pos hx2] at h
        obtain rfl : t.1 = p := by simpa using h
        exact Or.inr ⟨t.2.2, by rw [← hx2]; simp⟩
      · rw [if_neg hx2] at h
        rcases ih h with ⟨c, hc⟩ | ⟨c, hc⟩
        · exact Or.inl ⟨c, List.mem_cons_of_mem _ hc⟩
        · exact Or.inr ⟨c, List.mem_cons_of_mem _ hc⟩

theorem find_partner_of_mem_fst (ms : List (String × String × ℚ)) (x p : String)
    (c : ℚ) (hnd : (ids_of ms).Nodup) (hm : (x, p, c) ∈ ms) :
    find_partner ms x = some p := by
  induction ms with
  | nil => simp at hm
  | cons t r ih =>
    rw [ids_of_cons, List.nodup_cons] at hnd
    obtain ⟨hn1, h2⟩ := hnd
    rw [List.nodup_cons] at h2
    obtain ⟨hn2, hnr⟩ := h2
    rcases List.mem_cons.mp hm with h1 | h1
    · rw [find_partner, ← h1]
      simp
    · have hx1 : ¬ t.1 = x := by
        intro he
        exact hn1 (he ▸ List.mem_cons_of_mem _ (mem_ids_of_fst r (x, p, c) h1))
      have hx2 : ¬ t.2.1 = x := by
        intro he
        exact hn2 (he ▸ mem_ids_of_fst r (x, p, c) h1)
      rw [find_partner, if_neg hx1, if_neg hx2]
      exact ih hnr h1

theorem find_partner_of_mem_snd (ms : List (String × String × ℚ)) (x p : String)
    (c : ℚ) (hnd : (ids_of ms).Nodup) (hm : (p, x, c) ∈ ms) :
    find_partner ms x = some p := by
  induction ms with
  | nil => simp at hm
  | cons t r ih =>
    rw [ids_of_cons, List.nodup_cons] at hnd
    obtain ⟨hn1, h2⟩ := hnd
    rw [List.nodup_cons] at h2
    obtain ⟨hn2, hnr⟩ := h2
    rcases List.mem_cons.mp hm with h1 | h1
    · have hne : ¬ t.1 = t.2.1 := fun he => hn1 (he ▸ List.mem_cons_self _ _)
      rw [find_partner, ← h1]
      simp only [← h1] at hne
      rw [if_neg hne]
      simp
    · have hx1 : ¬ t.1 = x := by
        intro he
        exact hn1 (he ▸ List.mem_cons_of_mem _ (mem_ids_of_snd r (p, x, c) h1))
      have hx2 : ¬ t.2.1 = x := by
        intro he
        exact hn2 (he ▸ mem_ids_of_snd r (p, x, c) h1)
      rw [find_partner, if_neg hx1, if_neg hx2]
      exact ih hnr h1

/-! ### Lemmas about `score_dict_of` and `score_lookup_dict` -/

theorem alookup_aupd_isSome_mono {κ β : Type} [DecidableEq κ]
    (l : List (κ × β)) (k' : κ) (v' : β) (k : κ)
    (h : (alookup l k).isSome) : (alookup (aupd l k' v') k).isSome := by
  rw [alookup_aupd]
  by_cases hk : k' = k
  · simp [hk]
  · simpa [hk] using h

theorem score_dict_foldl_isSome_mono (scores : List MatchScore)
    (acc : List ((String × String) × ℚ)) (k : String × String)
    (h : (alookup acc k).isSome) :
    (alookup (scores.foldl
      (fun acc s =>
        aupd (aupd acc (s.candidate_a_id, s.candidate_b_id) s.total_score)
          (s.candidate_b_id, s.candidate_a_id) s.total_score) acc) k).isSome := by
  induction scores generalizing acc with
  | nil => exact h
  | cons s t ih =>
    rw [List.foldl_cons]
    exact ih _ (alookup_aupd_isSome_mono _ _ _ _ (alookup_aupd_isSome_mono _ _ _ _ h))

theorem score_dict_foldl_present (scores : List MatchScore)
    (acc : List ((String × String) × ℚ)) (s : MatchScore) (hs : s ∈ scores) :
    (alookup (scores.foldl
      (fun acc s =>
        aupd (aupd acc (s.candidate_a_id, s.candidate_b_id) s.total_score)
          (s.candidate_b_id, s.candidate_a_id) s.total_score) acc)
      (s.candidate_a_id, s.candidate_b_id)).isSome ∧
    (alookup (scores.foldl
      (fun acc s =>
        aupd (aupd acc (s.candidate_a_id, s.candidate_b_id) s.total_score)
          (s.candidate_b_id, s.candidate_a_id) s.total_score) acc)
      (s.candidate_b_id, s.candidate_a_id)).isSome := by
  induction scores generalizing acc with
  | nil => simp at hs
  | cons s0 t ih =>
    rw [List.foldl_cons]
    rcases List.mem_cons.mp hs with h1 | h1
    · subst h1
      constructor
      · refine score_dict_foldl_isSome_mono t _ _ ?_
        refine alookup_aupd_isSome_mono _ _ _ _ ?_
        rw [alookup_aupd, if_pos rfl]
        rfl
      · refine score_dict_foldl_isSome_mono t _ _ ?_
        rw [alookup_aupd, if_pos rfl]
        rfl
    · exact ih _ h1

theorem score_dict_present (scores : List MatchScore) (s : MatchScore)
    (hs : s ∈ scores) :
    (alookup (score_dict_of scores) (s.candidate_a_id, s.candidate_b_id)).isSome ∧
    (alookup (score_dict_of scores) (s.candidate_b_id, s.candidate_a_id)).isSome := by
  rw [score_dict_of]
  exact score_dict_foldl_present scores [] s hs

theorem score_dict_foldl_conform (scores : List MatchScore) (f : String → String → ℚ)
    (hsym : ∀ a b, f a b = f b a)
    (hval : ∀ s ∈ scores, s.total_score = f s.candidate_a_id s.candidate_b_id)
    (acc : List ((String × String) × ℚ))
    (hacc : ∀ x y v, alookup acc (x, y) = some v → v = f x y) :
    ∀ x y v, alookup (scores.foldl
      (fun acc s =>
        aupd (aupd acc (s.candidate_a_id, s.candidate_b_id) s.total_score)
          (s.candidate_b_id, s.candidate_a_id) s.total_score) acc) (x, y) = some v →
      v = f x y := by
  induction scores generalizing acc with
  | nil => exact hacc
  | cons s t ih =>
    rw [List.foldl_cons]
    refine ih (fun s2 hs2 => hval s2 (List.mem_cons_of_mem _ hs2)) _ ?_
    intro x y v hv
    rw [alookup_aupd] at hv
    by_cases h1 : (s.candidate_b_id, s.candidate_a_id) = (x, y)
    · rw [if_pos h1] at hv
      obtain ⟨hb, ha⟩ := Prod.mk.injEq .. ▸ h1
      obtain rfl : s.total_score = v := by simpa using hv
      rw [hval s (List.mem_cons_self _ _), ← hb, ← ha, hsym]
    · rw [if_neg h1, alookup_aupd] at hv
      by_cases h2 : (s.candidate_a_id, s.candidate_b_id) = (x, y)
      · rw [if_pos h2] at hv
        obtain ⟨ha, hb⟩ := Prod.mk.injEq .. ▸ h2
        obtain rfl : s.total_score = v := by simpa using hv
        rw [hval s (List.mem_cons_self _ _), ← ha, ← hb]
      · rw [if_neg h2] at hv
        exact hacc x y v hv

theorem score_dict_value (scores : List MatchScore) (f : String → String → ℚ)
    (hsym : ∀ a b, f a b = f b a)
    (hval : ∀ s ∈ scores, s.total_score = f s.candidate_a_id s.candidate_b_id)
    (x y : String) (v : ℚ)
    (h : alookup (score_dict_of scores) (x, y) = some v) : v = f x y := by
  rw [score_dict_of] at h
  exact score_dict_foldl_conform scores f hsym hval [] (by simp [alookup]) x y v h

/-! ### Lemmas about the gender partition -/

theorem alookup_map_keyed {γ : Type} (l : List (String × Candidate))
    (g : String → γ) (x : String) :
    alookup (l.map (fun p => (p.1, g p.1))) x = (alookup l x).map (fun _ => g x) := by
  induction l with
  | nil => rfl
  | cons p t ih =>
    rw [List.map_cons]
    by_cases hp : p.1 = x
    · rw [show ((p.1, g p.1) :: t.map (fun p => (p.1, g p.1))) =
        ((p.1, g p.1) :: t.map (fun p => (p.1, g p.1))) from rfl,
        alookup_cons, if_pos hp]
      rw [show alookup (p :: t) x = if p.1 = x then some p.2 else alookup t x from by
        obtain ⟨a, b⟩ := p; rfl, if_pos hp, hp]
      rfl
    · rw [alookup_cons, if_neg hp]
      rw [show alookup (p :: t) x = if p.1 = x then some p.2 else alookup t x from by
        obtain ⟨a, b⟩ := p; rfl, if_neg hp]
      exact ih

theorem nodup_akeys_filter (cands : List (String × Candidate))
    (p : String × Candidate → Bool) (h : (akeys cands).Nodup) :
    (akeys (cands.filter p)).Nodup :=
  ((List.filter_sublist cands).map Prod.fst).nodup h

theorem alookup_men_of (cands : List (String × Candidate))
    (hn : (akeys cands).Nodup) (x : String) (c : Candidate) :
    alookup (men_of cands) x = some c ↔
      alookup cands x = some c ∧ c.gender = Gender.M := by
  constructor
  · intro h
    have hm := mem_of_alookup_eq_some _ _ _ h
    rw [men_of, List.mem_filter] at hm
    refine ⟨alookup_eq_some_of_mem _ _ _ hn hm.1, by simpa using hm.2⟩
  · rintro ⟨h1, h2⟩
    refine alookup_eq_some_of_mem _ _ _ (nodup_akeys_filter _ _ hn) ?_
    rw [men_of, List.mem_filter]
    exact ⟨mem_of_alookup_eq_some _ _ _ h1, by simpa using h2⟩

theorem alookup_women_of (cands : List (String × Candidate))
    (hn : (akeys cands).Nodup) (x : String) (c : Candidate) :
    alookup (women_of cands) x = some c ↔
      alookup cands x = some c ∧ c.gender = Gender.F := by
  constructor
  · intro h
    have hm := mem_of_alookup_eq_some _ _ _ h
    rw [women_of, List.mem_filter] at hm
    refine ⟨alookup_eq_some_of_mem _ _ _ hn hm.1, by simpa using hm.2⟩
  · rintro ⟨h1, h2⟩
    refine alookup_eq_some_of_mem _ _ _ (nodup_akeys_filter _ _ hn) ?_
    rw [women_of, List.mem_filter]
    exact ⟨mem_of_alookup_eq_some _ _ _ h1, by simpa using h2⟩

theorem men_women_of_disjoint (cands : List (String × Candidate))
    (hn : (akeys cands).Nodup) (x : String)
    (hm : x ∈ akeys (men_of cands)) (hw : x ∈ akeys (women_of cands)) : False := by
  obtain ⟨cm, hcm⟩ := Option.isSome_iff_exists.mp
    ((alookup_isSome_mem_akeys _ _).mpr hm)
  obtain ⟨cw, hcw⟩ := Option.isSome_iff_exists.mp
    ((alookup_isSome_mem_akeys _ _).mpr hw)
  rw [alookup_men_of cands hn] at hcm
  rw [alookup_women_of cands hn] at hcw
  rw [hcm.1] at hcw
  obtain rfl : cm = cw := by simpa using hcw.1
  rw [hcm.2] at hcw
  exact absurd hcw.2 (by simp)

/-! ### Concrete fixtures used by witnesses and counterexamples -/

/-- A distance provider that always raises. -/
def geo_fail : String → String → Except Unit ℚ := fun _ _ => Except.error ()

/-- A distance provider that always returns 0 km. -/
def geo_zero : String → String → Except Unit ℚ := fun _ _ => Except.ok 0

/-- An embeddings provider that always reports similarity 1. -/
def sim_one : String → String → ℚ := fun _ _ => 1

def no_constraints : HardConstraints :=
  { min_age := none, max_age := none, max_distance_km := none, smoking := none,
    required_communities := none, required_religiosity := none,
    required_languages := none }

def cand_m : Candidate :=
  { id := "m1", gender := Gender.M, age := 28, community := Community.lithuanian,
    religiosity_level := ReligiosityLevel.strict, location := "bnei-brak",
    education := EducationLevel.yeshiva, description_text := "torah",
    languages := ["hebrew"], smoking := false }

def cand_w : Candidate :=
  { id := "w1", gender := Gender.F, age := 27, community := Community.lithuanian,
    religiosity_level := ReligiosityLevel.strict, location := "bnei-brak",
    education := EducationLevel.yeshiva, description_text := "chesed",
    languages := ["hebrew"], smoking := false }

def prefs_of_id (cid : String) : Preferences :=
  { candidate_id := cid, must_have := no_constraints, free_text := "neutral" }

def mk_score (a b : String) (t : ℚ) : MatchScore :=
  { candidate_a_id := a, candidate_b_id := b, total_score := t,
    semantic_similarity := 0, religious_compatibility := 0,
    age_compatibility := 0, location_compatibility := 0, other_factors := 0,
    explanation := "" }

/-! ### Claim C4 -/

theorem community_matrix_total (a b : Community) :
    (alookup ((alookup community_compatibility a).getD []) b).isSome := by
  cases a <;> cases b <;> rfl

theorem religiosity_matrix_total (a b : ReligiosityLevel) :
    (alookup ((alookup religiosity_compatibility a).getD []) b).isSome := by
  cases a <;> cases b <;> rfl

/-- C4: every pair of community enum values and every pair of religiosity
enum values resolves to an actual matrix entry, and
`calculate_religious_compatibility` is the 0.6/0.4 weighted average of
those two entries — the lookup-time 0.5 default is never exercised. -/
theorem c4_matrix_lookups_never_default (candidate_a candidate_b : Candidate) :
    ∃ cv rv,
      alookup ((alookup community_compatibility candidate_a.community).getD [])
        candidate_b.community = some cv ∧
      alookup ((alookup religiosity_compatibility candidate_a.religiosity_level).getD [])
        candidate_b.religiosity_level = some rv ∧
      calculate_religious_compatibility candidate_a candidate_b =
        cv * (6/10) + rv * (4/10) := by
  obtain ⟨cv, hcv⟩ := Option.isSome_iff_exists.mp
    (community_matrix_total candidate_a.community candidate_b.community)
  obtain ⟨rv, hrv⟩ := Option.isSome_iff_exists.mp
    (religiosity_matrix_total candidate_a.religiosity_level candidate_b.religiosity_level)
  refine ⟨cv, rv, hcv, hrv, ?_⟩
  rw [calculate_religious_compatibility, hcv, hrv]
  simp

/-! ### Claim C7 -/

/-- C7: nothing returned by `filter_candidates` carries the requester's own
id or the requester's gender. -/
theorem c7_filter_excludes_self_and_same_side
    (geo : String → String → Except Unit ℚ) (candidates : List Candidate)
    (requester : Candidate) (preferences : Preferences)
    (e : Candidate × MatchReason)
    (he : e ∈ filter_candidates geo candidates requester preferences) :
    e.1.id ≠ requester.id ∧ e.1.gender ≠ requester.gender := by
  have key : ∀ (l : List Candidate) (acc : List (Candidate × MatchReason)),
      (∀ e2 ∈ acc, e2.1.id ≠ requester.id ∧ e2.1.gender ≠ requester.gender) →
      ∀ e2 ∈ l.foldl
        (fun acc candidate =>
          if candidate.id = requester.id then acc
          else if candidate.gender = requester.gender then acc
          else
            match is_valid_match geo candidate requester preferences with
            | (true, reason) => acc ++ [(candidate, reason)]
            | (false, _) => acc) acc,
      e2.1.id ≠ requester.id ∧ e2.1.gender ≠ requester.gender := by
    intro l
    induction l with
    | nil =>
      intro acc hacc e2 he2
      exact hacc e2 he2
    | cons c t ih =>
      intro acc hacc e2 he2
      rw [List.foldl_cons] at he2
      refine ih _ ?_ e2 he2
      intro e3 he3
      by_cases h1 : c.id = requester.id
      · rw [if_pos h1] at he3
        exact hacc e3 he3
      · rw [if_neg h1] at he3
        by_cases h2 : c.gender = requester.gender
        · rw [if_pos h2] at he3
          exact hacc e3 he3
        · rw [if_neg h2] at he3
          rcases hbr : is_valid_match geo c requester preferences with ⟨b, r0⟩
          rw [hbr] at he3
          cases b with
          | false => exact hacc e3 he3
          | true =>
            rcases List.mem_append.mp he3 with h3 | h3
            · exact hacc e3 h3
            · have : e3 = (c, r0) := by simpa using h3
              subst this
              exact ⟨h1, h2⟩
  rw [filter_candidates] at he
  exact key candidates [] (by simp) e he

/-- Witness for C7 at a concrete pool. -/
theorem c7_witness :
    ((cand_w, MatchReason.pass) ∈
      filter_candidates geo_zero [cand_w] cand_m (prefs_of_id "m1")) ∧
    cand_w.id ≠ cand_m.id ∧ cand_w.gender ≠ cand_m.gender :=
  ⟨by decide,
   c7_filter_excludes_self_and_same_side geo_zero [cand_w] cand_m
     (prefs_of_id "m1") (cand_w, MatchReason.pass) (by decide)⟩

/-! ### Claim C8 -/

/-- C8: `predict_score` on an untrained ranker returns exactly the
caller-supplied `total_score` entry of `base_scores`, unmodified. -/
theorem c8_untrained_predict_returns_base (ranker : MatchingRanker)
    (h : ranker.is_trained = false)
    (candidate_a candidate_b : Candidate)
    (preferences_a preferences_b : Preferences)
    (base_scores : List (String × ℚ)) (t : ℚ)
    (hbase : alookup base_scores "total_score" = some t) :
    predict_score ranker candidate_a candidate_b preferences_a preferences_b
      base_scores = t := by
  rw [predict_score, if_pos h, hbase]
  rfl

def ranker_untrained : MatchingRanker :=
  { is_trained := false, feature_names := [], model := fun _ => Except.error () }

/-- Witness for C8. -/
theorem c8_witness :
    ranker_untrained.is_trained = false ∧
    alookup [("total_score", (7 : ℚ)/10)] "total_score" = some (7/10) ∧
    predict_score ranker_untrained cand_m cand_w (prefs_of_id "m1")
      (prefs_of_id "w1") [("total_score", 7/10)] = 7/10 :=
  ⟨rfl, rfl,
   c8_untrained_predict_returns_base ranker_untrained rfl cand_m cand_w
     (prefs_of_id "m1") (prefs_of_id "w1") [("total_score", 7/10)] (7/10) rfl⟩

/-! ### Claim C10 -/

/-- C10: when the distance provider raises, `calculate_distance` returns
0.0 km, so the distance gate passes for every `max_distance_km` and the
location score is the maximum 1.0. -/
theorem c10_geo_failure_gives_zero_distance
    (geo : String → String → Except Unit ℚ)
    (candidate_a candidate_b : Candidate) (constraints : HardConstraints)
    (h : geo candidate_a.location candidate_b.location = Except.error ()) :
    calculate_distance geo candidate_a.location candidate_b.location = 0 ∧
    check_distance_constraint geo candidate_a candidate_b.location constraints = true ∧
    calculate_location_compatibility geo candidate_a candidate_b = 1 := by
  have hd : calculate_distance geo candidate_a.location candidate_b.location = 0 := by
    rw [calculate_distance, h]
  refine ⟨hd, ?_, ?_⟩
  · rw [check_distance_constraint]
    cases htd : truthyNat constraints.max_distance_km with
    | false => simp
    | true => simp [hd]
  · rw [calculate_location_compatibility]
    simp only [hd]
    norm_num

/-- Witness for C10. -/
theorem c10_witness :
    geo_fail cand_m.location cand_w.location = Except.error () ∧
    (calculate_distance geo_fail cand_m.location cand_w.location = 0 ∧
     check_distance_constraint geo_fail cand_m cand_w.location
       { no_constraints with max_distance_km := some 5 } = true ∧
     calculate_location_compatibility geo_fail cand_m cand_w = 1) :=
  ⟨rfl,
   c10_geo_failure_gives_zero_distance geo_fail cand_m cand_w
     { no_constraints with max_distance_km := some 5 } rfl⟩

/-! ### Claim C9 -/

/-- C9: `validate_stability` can return `False` only because of a scored
pair whose two members both currently have partners in the match dict
(and strictly prefer each other, by score, over those partners); a pair
with an unmatched member is skipped and never flagged. -/
theorem c9_violations_need_both_matched (ms : List (String × String × ℚ))
    (scores : List MatchScore)
    (h : validate_stability ms scores = false) :
    ∃ s ∈ scores, ∃ pa pb,
      alookup (match_dict_of ms) s.candidate_a_id = some pa ∧
      alookup (match_dict_of ms) s.candidate_b_id = some pb ∧
      pa ≠ s.candidate_b_id ∧ pa ≠ "" ∧ pb ≠ "" ∧
      (alookup (score_dict_of scores) (s.candidate_a_id, pa)).getD 0 < s.total_score ∧
      (alookup (score_dict_of scores) (s.candidate_b_id, pb)).getD 0 < s.total_score := by
  rw [validate_stability] at h
  have h2 : ¬ ∀ s ∈ scores,
      score_ok (match_dict_of ms) (score_dict_of scores) s = true := by
    intro hall
    rw [List.all_eq_true.mpr hall] at h
    simp at h
  push_neg at h2
  obtain ⟨s, hs, hne⟩ := h2
  have hfalse : score_ok (match_dict_of ms) (score_dict_of scores) s = false := by
    cases hb : score_ok (match_dict_of ms) (score_dict_of scores) s with
    | false => rfl
    | true => exact absurd hb hne
  refine ⟨s, hs, ?_⟩
  rw [score_ok] at hfalse
  cases hA : alookup (match_dict_of ms) s.candidate_a_id with
  | none => rw [hA] at hfalse; simp at hfalse
  | some pa =>
    cases hB : alookup (match_dict_of ms) s.candidate_b_id with
    | none => rw [hA, hB] at hfalse; simp at hfalse
    | some pb =>
      rw [hA, hB] at hfalse
      simp only [] at hfalse
      by_cases hab : pa = s.candidate_b_id
      · rw [if_pos hab] at hfalse
        simp at hfalse
      · rw [if_neg hab] at hfalse
        by_cases hguard : pa ≠ "" ∧ pb ≠ ""
        · rw [if_pos hguard] at hfalse
          simp only [Bool.not_eq_false', Bool.and_eq_true, decide_eq_true_eq] at hfalse
          exact ⟨pa, pb, rfl, rfl, hab, hguard.1, hguard.2, hfalse.1, hfalse.2⟩
        · rw [if_neg hguard] at hfalse
          simp at hfalse

def c9_ms : List (String × String × ℚ) := [("1", "2", 1), ("3", "4", 1)]

def c9_scores : List MatchScore := [mk_score "1" "4" 2]

/-- Witness for C9: a concrete run in which `validate_stability` is
`false`, together with the violating both-matched pair obtained from the
theorem. -/
theorem c9_witness :
    validate_stability c9_ms c9_scores = false ∧
    (∃ s ∈ c9_scores, ∃ pa pb,
      alookup (match_dict_of c9_ms) s.candidate_a_id = some pa ∧
      alookup (match_dict_of c9_ms) s.candidate_b_id = some pb ∧
      pa ≠ s.candidate_b_id ∧ pa ≠ "" ∧ pb ≠ "" ∧
      (alookup (score_dict_of c9_scores) (s.candidate_a_id, pa)).getD 0 < s.total_score ∧
      (alookup (score_dict_of c9_scores) (s.candidate_b_id, pb)).getD 0 < s.total_score) :=
  ⟨by decide, c9_violations_need_both_matched c9_ms c9_scores (by decide)⟩

/-! ### Claim C5 -/

/-- Cap-hit input: one man whose only interest is a woman that does not
know him.  The iteration cap `1 * 1 = 1` is reached with the free queue
still holding the man. -/
def gs_caphit_men : List (String × List String) := [("1", ["2"])]

def gs_caphit_women : List (String × List String) := [("2", [])]

/-- A drained (converged) input producing the same return value. -/
def gs_conv_men : List (String × List String) := [("1", [])]

def gs_conv_women : List (String × List String) := [("2", []), ("3", [])]

/-- C5 counterexample: on `gs_caphit_*` the loop stops exactly at the
`|A| * |B|` cap with a non-empty free queue, yet `gale_shapley` returns a
bare partner map carrying no `converged` flag — the very same value it
returns for the converged run on `gs_conv_*`.  The claimed explicit
`converged=false` flag does not exist in the return value. -/
theorem c5_counterexample :
    (gs_final gs_caphit_men gs_caphit_women).iteration =
      gs_caphit_men.length * gs_caphit_women.length ∧
    (gs_final gs_caphit_men gs_caphit_women).free_men = ["1"] ∧
    (gs_final gs_conv_men gs_conv_women).free_men = [] ∧
    (gs_final gs_conv_men gs_conv_women).iteration <
      gs_conv_men.length * gs_conv_women.length ∧
    gale_shapley gs_caphit_men gs_caphit_women =
      gale_shapley gs_conv_men gs_conv_women := by
  refine ⟨by decide, by decide, by decide, by decide, by decide⟩

theorem gs_step_iteration (mp wp : List (String × List String))
    (man : String) (rest : List String) (s : GSState) :
    (gs_step mp wp man rest s).iteration = s.iteration + 1 := by
  rw [gs_step]
  dsimp only
  split
  · rfl
  · split
    · rfl
    · split
      · rfl
      · split
        · rfl
        · split
          · rfl
          · rfl

theorem gs_loop_iteration_le (mp wp : List (String × List String))
    (fuel : Nat) (s : GSState) :
    (gs_loop mp wp fuel s).iteration ≤ s.iteration + fuel := by
  induction fuel generalizing s with
  | zero => simp [gs_loop]
  | succ n ih =>
    rw [gs_loop]
    cases hf : s.free_men with
    | nil =>
      dsimp only
      omega
    | cons man rest =>
      dsimp only
      have h1 := ih (gs_step mp wp man rest s)
      rw [gs_step_iteration] at h1
      omega

theorem gs_step_next_proposal_le (mp wp : List (String × List String))
    (man : String) (rest : List String) (s : GSState)
    (h : ∀ m, s.next_proposal m ≤ ((alookup mp m).getD []).length) :
    ∀ m, (gs_step mp wp man rest s).next_proposal m ≤
      ((alookup mp m).getD []).length := by
  intro m
  rw [gs_step]
  dsimp only
  by_cases hex : s.next_proposal man ≥ ((alookup mp man).getD []).length
  · rw [if_pos hex]
    exact h m
  · rw [if_neg hex]
    have hnp : (if m = man then s.next_proposal man + 1 else s.next_proposal m) ≤
        ((alookup mp m).getD []).length := by
      by_cases hm : m = man
      · rw [if_pos hm, hm]
        omega
      · rw [if_neg hm]
        exact h m
    split
    · exact hnp
    · split
      · exact hnp
      · split
        · exact hnp
        · split
          · exact hnp
          · exact hnp

theorem gs_loop_next_proposal_le (mp wp : List (String × List String))
    (fuel : Nat) (s : GSState)
    (h : ∀ m, s.next_proposal m ≤ ((alookup mp m).getD []).length) :
    ∀ m, (gs_loop mp wp fuel s).next_proposal m ≤
      ((alookup mp m).getD []).length := by
  induction fuel generalizing s with
  | zero => exact h
  | succ n ih =>
    rw [gs_loop]
    cases hf : s.free_men with
    | nil => exact h
    | cons man rest => exact ih _ (gs_step_next_proposal_le mp wp man rest s h)

/-- C5 amended: the loop always terminates within the `|A| * |B|`
iteration cap and each proposer advances through at most his own
preference list (so there are at most `|A| * |B|` proposals when the
lists are built over the `|B|` counterparts); when the cap is reached
with free proposers remaining, the men-partner map of the state reached
is returned as-is — there is no convergence flag on the return value. -/
theorem c5_amended (mp wp : List (String × List String)) :
    gale_shapley mp wp = (gs_final mp wp).men_partner ∧
    (gs_final mp wp).iteration ≤ mp.length * wp.length ∧
    ∀ m, (gs_final mp wp).next_proposal m ≤ ((alookup mp m).getD []).length := by
  refine ⟨rfl, ?_, ?_⟩
  · have h1 := gs_loop_iteration_le mp wp (mp.length * wp.length) (gs_initial mp)
    simpa [gs_initial] using h1
  · exact gs_loop_next_proposal_le mp wp _ _ (fun m => by simp [gs_initial])

/-! ### Claim C3 -/

theorem calculate_match_score_total (sim : String → String → ℚ)
    (geo : String → String → Except Unit ℚ) (weights : List (String × ℚ))
    (candidate_a candidate_b : Candidate)
    (preferences_a preferences_b : Preferences) :
    (calculate_match_score sim geo weights candidate_a candidate_b
      preferences_a preferences_b).total_score =
      calculate_semantic_similarity sim candidate_a candidate_b preferences_a preferences_b *
        (alookup weights "semantic_similarity").getD 0 +
      calculate_religious_compatibility candidate_a candidate_b *
        (alookup weights "religious_compatibility").getD 0 +
      calculate_age_compatibility candidate_a candidate_b *
        (alookup weights "age_compatibility").getD 0 +
      calculate_location_compatibility geo candidate_a candidate_b *
        (alookup weights "location_compatibility").getD 0 +
      calculate_other_factors candidate_a candidate_b *
        (alookup weights "other_factors").getD 0 := rfl

theorem community_entry_bounds (a b : Community) :
    0 ≤ (alookup ((alookup community_compatibility a).getD []) b).getD (5/10) ∧
    (alookup ((alookup community_compatibility a).getD []) b).getD (5/10) ≤ 1 := by
  cases a <;> cases b <;> simp +decide [community_compatibility, alookup] <;> norm_num

theorem religiosity_entry_bounds (a b : ReligiosityLevel) :
    0 ≤ (alookup ((alookup religiosity_compatibility a).getD []) b).getD (5/10) ∧
    (alookup ((alookup religiosity_compatibility a).getD []) b).getD (5/10) ≤ 1 := by
  cases a <;> cases b <;> simp +decide [religiosity_compatibility, alookup] <;> norm_num

theorem calculate_religious_compatibility_bounds (ca cb : Candidate) :
    0 ≤ calculate_religious_compatibility ca cb ∧
    calculate_religious_compatibility ca cb ≤ 1 := by
  obtain ⟨h1, h2⟩ := community_entry_bounds ca.community cb.community
  obtain ⟨h3, h4⟩ := religiosity_entry_bounds ca.religiosity_level cb.religiosity_level
  rw [calculate_religious_compatibility]
  constructor <;> linarith

theorem calculate_age_compatibility_bounds (ca cb : Candidate) :
    0 ≤ calculate_age_compatibility ca cb ∧ calculate_age_compatibility ca cb ≤ 1 := by
  rw [calculate_age_compatibility]
  split_ifs <;> norm_num

theorem calculate_location_compatibility_bounds
    (geo : String → String → Except Unit ℚ) (ca cb : Candidate) :
    0 ≤ calculate_location_compatibility geo ca cb ∧
    calculate_location_compatibility geo ca cb ≤ 1 := by
  rw [calculate_location_compatibility]
  split_ifs <;> norm_num

theorem calculate_other_factors_bounds (ca cb : Candidate) :
    0 ≤ calculate_other_factors ca cb ∧ calculate_other_factors ca cb ≤ 1 := by
  have key : ∀ e q s : ℚ, (e = 1 ∨ e = 7/10) → 0 ≤ q → q ≤ 1 →
      (s = 1 ∨ s = 3/10) → 0 ≤ (e + q + s)/3 ∧ (e + q + s)/3 ≤ 1 := by
    intro e q s he hq0 hq1 hs
    rcases he with he | he <;> rcases hs with hs | hs <;> subst he <;> subst hs <;>
      constructor <;> linarith
  rw [calculate_other_factors]
  refine key _ _ _ (by split_ifs <;> simp) (le_min (by norm_num) (by positivity))
    (min_le_left _ _) (by split_ifs <;> simp)

def c3_weights : List (String × ℚ) :=
  [("semantic_similarity", 1), ("religious_compatibility", 20/100),
   ("age_compatibility", 10/100), ("location_compatibility", 10/100),
   ("other_factors", 5/100)]

/-- C3 counterexample: the single-key map `{'semantic_similarity': 1.0}`
sums to 1 and is accepted by `update_weights`, but `dict.update` merges it
into the defaults, leaving weights that sum to 1.45; with every component
equal to 1 the subsequently computed total is 1.45, outside `[0,1]`. -/
theorem c3_counterexample :
    update_weights default_weights [("semantic_similarity", 1)] =
      Except.ok c3_weights ∧
    (calculate_match_score sim_one geo_zero c3_weights cand_m cand_w
      (prefs_of_id "m1") (prefs_of_id "w1")).total_score = 29/20 ∧
    ¬ ((29 : ℚ)/20 ≤ 1) := by
  refine ⟨?_, ?_, by norm_num⟩
  · rw [update_weights]
    simp only [List.map_cons, List.map_nil, List.sum_cons, List.sum_nil]
    rw [if_neg (not_not_intro (by norm_num))]
    rfl
  · rw [calculate_match_score_total]
    have hsem : calculate_semantic_similarity sim_one cand_m cand_w
        (prefs_of_id "m1") (prefs_of_id "w1") = 1 := rfl
    have hrel : calculate_religious_compatibility cand_m cand_w = 1 := by
      simp +decide only [calculate_religious_compatibility, community_compatibility,
        religiosity_compatibility, alookup, cand_m, cand_w]
      norm_num
    have hage : calculate_age_compatibility cand_m cand_w = 1 := by
      norm_num [calculate_age_compatibility, cand_m, cand_w]
    have hloc : calculate_location_compatibility geo_zero cand_m cand_w = 1 := by
      norm_num [calculate_location_compatibility, calculate_distance, geo_zero]
    have hoth : calculate_other_factors cand_m cand_w = 1 := by
      have hlang : ((cand_m.languages.filter
          (fun lang => lang ∈ cand_w.languages)).dedup.length : ℚ) = 1 := by
        norm_num [cand_m, cand_w, List.filter, List.dedup]
      norm_num [calculate_other_factors, cand_m, cand_w, hlang]
    rw [hsem, hrel, hage, hloc, hoth]
    have l1 : (alookup c3_weights "semantic_similarity").getD 0 = 1 := rfl
    have l2 : (alookup c3_weights "religious_compatibility").getD 0 = 20/100 := rfl
    have l3 : (alookup c3_weights "age_compatibility").getD 0 = 10/100 := rfl
    have l4 : (alookup c3_weights "location_compatibility").getD 0 = 10/100 := rfl
    have l5 : (alookup c3_weights "other_factors").getD 0 = 5/100 := rfl
    rw [l1, l2, l3, l4, l5]
    norm_num

/-- C3 amended: for a weight map carrying all five component keys, with
nonnegative values summing to 1 within the 0.01 tolerance,
`update_weights` accepts and fully replaces the weights, and every total
subsequently computed by `calculate_match_score` equals the weighted sum
of the five components and lies in `[0, 101/100]` (the tolerance admits
weight sums up to 1.01, so the claimed `[0,1]` bound must be widened). -/
theorem c3_amended (w1 w2 w3 w4 w5 : ℚ)
    (hnn : 0 ≤ w1 ∧ 0 ≤ w2 ∧ 0 ≤ w3 ∧ 0 ≤ w4 ∧ 0 ≤ w5)
    (hsum : |w1 + w2 + w3 + w4 + w5 - 1| ≤ 1/100)
    (sim : String → String → ℚ) (hsim : ∀ x y, 0 ≤ sim x y ∧ sim x y ≤ 1)
    (geo : String → String → Except Unit ℚ)
    (candidate_a candidate_b : Candidate)
    (preferences_a preferences_b : Preferences) :
    update_weights default_weights
        [("semantic_similarity", w1), ("religious_compatibility", w2),
         ("age_compatibility", w3), ("location_compatibility", w4),
         ("other_factors", w5)] =
      Except.ok
        [("semantic_similarity", w1), ("religious_compatibility", w2),
         ("age_compatibility", w3), ("location_compatibility", w4),
         ("other_factors", w5)] ∧
    (calculate_match_score sim geo
        [("semantic_similarity", w1), ("religious_compatibility", w2),
         ("age_compatibility", w3), ("location_compatibility", w4),
         ("other_factors", w5)] candidate_a candidate_b
        preferences_a preferences_b).total_score =
      calculate_semantic_similarity sim candidate_a candidate_b preferences_a preferences_b * w1 +
      calculate_religious_compatibility candidate_a candidate_b * w2 +
      calculate_age_compatibility candidate_a candidate_b * w3 +
      calculate_location_compatibility geo candidate_a candidate_b * w4 +
      calculate_other_factors candidate_a candidate_b * w5 ∧
    0 ≤ (calculate_match_score sim geo
        [("semantic_similarity", w1), ("religious_compatibility", w2),
         ("age_compatibility", w3), ("location_compatibility", w4),
         ("other_factors", w5)] candidate_a candidate_b
        preferences_a preferences_b).total_score ∧
    (calculate_match_score sim geo
        [("semantic_similarity", w1), ("religious_compatibility", w2),
         ("age_compatibility", w3), ("location_compatibility", w4),
         ("other_factors", w5)] candidate_a candidate_b
        preferences_a preferences_b).total_score ≤ 101/100 := by
  obtain ⟨hw1, hw2, hw3, hw4, hw5⟩ := hnn
  have hentry : ∀ x y : ℚ, |x - 1| ≤ y → x - 1 ≤ y := fun x y h => (abs_le.mp h).2
  have hub : w1 + w2 + w3 + w4 + w5 ≤ 101/100 := by
    have := (abs_le.mp hsum).2
    linarith
  have heq : (calculate_match_score sim geo
      [("semantic_similarity", w1), ("religious_compatibility", w2),
       ("age_compatibility", w3), ("location_compatibility", w4),
       ("other_factors", w5)] candidate_a candidate_b
      preferences_a preferences_b).total_score =
      calculate_semantic_similarity sim candidate_a candidate_b preferences_a preferences_b * w1 +
      calculate_religious_compatibility candidate_a candidate_b * w2 +
      calculate_age_compatibility candidate_a candidate_b * w3 +
      calculate_location_compatibility geo candidate_a candidate_b * w4 +
      calculate_other_factors candidate_a candidate_b * w5 := by
    rw [calculate_match_score_total]
    rfl
  refine ⟨?_, heq, ?_, ?_⟩
  · rw [update_weights]
    simp only [List.map_cons, List.map_nil, List.sum_cons, List.sum_nil]
    rw [if_neg (not_not_intro (by
      have hsum2 : w1 + (w2 + (w3 + (w4 + (w5 + 0)))) - 1 = w1 + w2 + w3 + w4 + w5 - 1 := by
        ring
      rw [hsum2]
      exact hsum))]
    rfl
  · rw [heq]
    obtain ⟨hs0, hs1⟩ := hsim
      (candidate_a.description_text ++ " " ++ preferences_a.free_text)
      (candidate_b.description_text ++ " " ++ preferences_b.free_text)
    obtain ⟨hr0, hr1⟩ := calculate_religious_compatibility_bounds candidate_a candidate_b
    obtain ⟨ha0, ha1⟩ := calculate_age_compatibility_bounds candidate_a candidate_b
    obtain ⟨hl0, hl1⟩ := calculate_location_compatibility_bounds geo candidate_a candidate_b
    obtain ⟨ho0, ho1⟩ := calculate_other_factors_bounds candidate_a candidate_b
    have t1 : 0 ≤ calculate_semantic_similarity sim candidate_a candidate_b
        preferences_a preferences_b * w1 := mul_nonneg hs0 hw1
    have t2 : 0 ≤ calculate_religious_compatibility candidate_a candidate_b * w2 :=
      mul_nonneg hr0 hw2
    have t3 : 0 ≤ calculate_age_compatibility candidate_a candidate_b * w3 :=
      mul_nonneg ha0 hw3
    have t4 : 0 ≤ calculate_location_compatibility geo candidate_a candidate_b * w4 :=
      mul_nonneg hl0 hw4
    have t5 : 0 ≤ calculate_other_factors candidate_a candidate_b * w5 :=
      mul_nonneg ho0 hw5
    linarith
  · rw [heq]
    obtain ⟨hs0, hs1⟩ := hsim
      (candidate_a.description_text ++ " " ++ preferences_a.free_text)
      (candidate_b.description_text ++ " " ++ preferences_b.free_text)
    obtain ⟨hr0, hr1⟩ := calculate_religious_compatibility_bounds candidate_a candidate_b
    obtain ⟨ha0, ha1⟩ := calculate_age_compatibility_bounds candidate_a candidate_b
    obtain ⟨hl0, hl1⟩ := calculate_location_compatibility_bounds geo candidate_a candidate_b
    obtain ⟨ho0, ho1⟩ := calculate_other_factors_bounds candidate_a candidate_b
    have t1 : calculate_semantic_similarity sim candidate_a candidate_b
        preferences_a preferences_b * w1 ≤ w1 := mul_le_of_le_one_left hw1 hs1
    have t2 : calculate_religious_compatibility candidate_a candidate_b * w2 ≤ w2 :=
      mul_le_of_le_one_left hw2 hr1
    have t3 : calculate_age_compatibility candidate_a candidate_b * w3 ≤ w3 :=
      mul_le_of_le_one_left hw3 ha1
    have t4 : calculate_location_compatibility geo candidate_a candidate_b * w4 ≤ w4 :=
      mul_le_of_le_one_left hw4 hl1
    have t5 : calculate_other_factors candidate_a candidate_b * w5 ≤ w5 :=
      mul_le_of_le_one_left hw5 ho1
    linarith

/-- Witness for C3 amended: the default weight vector itself. -/
theorem c3_amended_witness :
    (0 ≤ (55:ℚ)/100 ∧ 0 ≤ (20:ℚ)/100 ∧ 0 ≤ (10:ℚ)/100 ∧ 0 ≤ (10:ℚ)/100 ∧
      0 ≤ (5:ℚ)/100) ∧
    |(55:ℚ)/100 + 20/100 + 10/100 + 10/100 + 5/100 - 1| ≤ 1/100 ∧
    (∀ x y, 0 ≤ sim_one x y ∧ sim_one x y ≤ 1) ∧
    (0 ≤ (calculate_match_score sim_one geo_zero
        [("semantic_similarity", (55:ℚ)/100), ("religious_compatibility", 20/100),
         ("age_compatibility", 10/100), ("location_compatibility", 10/100),
         ("other_factors", 5/100)] cand_m cand_w
        (prefs_of_id "m1") (prefs_of_id "w1")).total_score ∧
     (calculate_match_score sim_one geo_zero
        [("semantic_similarity", (55:ℚ)/100), ("religious_compatibility", 20/100),
         ("age_compatibility", 10/100), ("location_compatibility", 10/100),
         ("other_factors", 5/100)] cand_m cand_w
        (prefs_of_id "m1") (prefs_of_id "w1")).total_score ≤ 101/100) := by
  have hnn : 0 ≤ (55:ℚ)/100 ∧ 0 ≤ (20:ℚ)/100 ∧ 0 ≤ (10:ℚ)/100 ∧ 0 ≤ (10:ℚ)/100 ∧
      0 ≤ (5:ℚ)/100 := by norm_num
  have hsum : |(55:ℚ)/100 + 20/100 + 10/100 + 10/100 + 5/100 - 1| ≤ 1/100 := by
    norm_num
  have hsim : ∀ x y, 0 ≤ sim_one x y ∧ sim_one x y ≤ 1 := by
    intro x y
    norm_num [sim_one]
  obtain ⟨-, -, hres⟩ := c3_amended (55/100) (20/100) (10/100) (10/100) (5/100)
    hnn hsum sim_one hsim geo_zero cand_m cand_w (prefs_of_id "m1") (prefs_of_id "w1")
  exact ⟨hnn, hsum, hsim, hres⟩

/-! ### Claim C6 -/

/-- Spec reading of C6: "every constraint field that is set is satisfied",
where "set" means the Optional field is present (`some`).  Stated from the
claim's words, for comparison with `is_valid_match`. -/
def set_constraints_satisfied (geo : String → String → Except Unit ℚ)
    (candidate requester : Candidate) (preferences : Preferences) : Prop :=
  (∀ m, preferences.must_have.min_age = some m → m ≤ candidate.age) ∧
  (∀ m, preferences.must_have.max_age = some m → candidate.age ≤ m) ∧
  (∀ d, preferences.must_have.max_distance_km = some d →
    calculate_distance geo candidate.location requester.location ≤ (d : ℚ)) ∧
  (∀ b, preferences.must_have.smoking = some b → candidate.smoking = b) ∧
  (∀ l, preferences.must_have.required_communities = some l →
    candidate.community ∈ l) ∧
  (∀ l, preferences.must_have.required_religiosity = some l →
    candidate.religiosity_level ∈ l) ∧
  (∀ l, preferences.must_have.required_languages = some l →
    ∃ lang ∈ l, lang ∈ candidate.languages)

def prefs_empty_comm : Preferences :=
  { candidate_id := "m1",
    must_have := { no_constraints with required_communities := some [] },
    free_text := "neutral" }

/-- C6 counterexample: `required_communities` set to the empty list is a
set-but-falsy constraint field; `is_valid_match` passes although the set
constraint is violated (no community is allowed), refuting "pass iff every
set constraint field is satisfied". -/
theorem c6_counterexample :
    (is_valid_match geo_zero cand_w cand_m prefs_empty_comm).1 = true ∧
    ¬ set_constraints_satisfied geo_zero cand_w cand_m prefs_empty_comm := by
  constructor
  · decide
  · intro h
    have hmem := h.2.2.2.2.1 [] rfl
    simp at hmem

/-- Truthiness-adjusted satisfaction of the age bounds. -/
@[reducible]
def age_ok (candidate : Candidate) (constraints : HardConstraints) : Prop :=
  (truthyNat constraints.min_age = true →
    constraints.min_age.getD 0 ≤ candidate.age) ∧
  (truthyNat constraints.max_age = true →
    candidate.age ≤ constraints.max_age.getD 0)

/-- Truthiness-adjusted satisfaction of the distance bound. -/
@[reducible]
def distance_ok (geo : String → String → Except Unit ℚ) (candidate : Candidate)
    (requester_location : String) (constraints : HardConstraints) : Prop :=
  truthyNat constraints.max_distance_km = true →
    calculate_distance geo candidate.location requester_location ≤
      (constraints.max_distance_km.getD 0 : ℚ)

/-- Satisfaction of the smoking requirement. -/
@[reducible]
def smoking_ok (candidate : Candidate) (constraints : HardConstraints) : Prop :=
  ∀ b, constraints.smoking = some b → candidate.smoking = b

/-- Truthiness-adjusted satisfaction of the allowed-community set. -/
@[reducible]
def community_ok (candidate : Candidate) (constraints : HardConstraints) : Prop :=
  truthyList constraints.required_communities = true →
    candidate.community ∈ constraints.required_communities.getD []

/-- Truthiness-adjusted satisfaction of the allowed-religiosity set. -/
@[reducible]
def religiosity_ok (candidate : Candidate) (constraints : HardConstraints) : Prop :=
  truthyList constraints.required_religiosity = true →
    candidate.religiosity_level ∈ constraints.required_religiosity.getD []

/-- Truthiness-adjusted satisfaction of the required-language set. -/
@[reducible]
def language_ok (candidate : Candidate) (constraints : HardConstraints) : Prop :=
  truthyList constraints.required_languages = true →
    ∃ lang ∈ constraints.required_languages.getD [], lang ∈ candidate.languages

/-- The first violated check in the fixed order age, distance, smoking,
community, religiosity, language (spec-side description of the reason). -/
def spec_first_reason (geo : String → String → Except Unit ℚ)
    (candidate requester : Candidate) (preferences : Preferences) : MatchReason :=
  let constraints := preferences.must_have
  if ¬ age_ok candidate constraints then MatchReason.age_fail
  else if ¬ distance_ok geo candidate requester.location constraints then
    MatchReason.distance_fail
  else if ¬ smoking_ok candidate constraints then MatchReason.smoking_fail
  else if ¬ community_ok candidate constraints then MatchReason.community_fail
  else if ¬ religiosity_ok candidate constraints then MatchReason.religiosity_fail
  else if ¬ language_ok candidate constraints then MatchReason.language_fail
  else MatchReason.pass

theorem check_age_constraint_iff (c : Candidate) (cons : HardConstraints) :
    check_age_constraint c cons = true ↔ age_ok c cons := by
  rw [check_age_constraint, age_ok]
  constructor
  · intro h
    split_ifs at h with ha hb
    constructor
    · intro ht
      by_contra hlt
      exact ha ⟨ht, by omega⟩
    · intro ht
      by_contra hgt
      exact hb ⟨ht, by omega⟩
  · intro h
    split_ifs with ha hb
    · exfalso
      have := h.1 ha.1
      omega
    · exfalso
      have := h.2 hb.1
      omega
    · rfl

theorem check_distance_constraint_iff (geo : String → String → Except Unit ℚ)
    (c : Candidate) (rloc : String) (cons : HardConstraints) :
    check_distance_constraint geo c rloc cons = true ↔
      distance_ok geo c rloc cons := by
  rw [check_distance_constraint, distance_ok]
  cases ht : truthyNat cons.max_distance_km <;> simp [ht]

theorem check_smoking_constraint_iff (c : Candidate) (cons : HardConstraints) :
    check_smoking_constraint c cons = true ↔ smoking_ok c cons := by
  rw [check_smoking_constraint, smoking_ok]
  cases hs : cons.smoking <;> simp [hs]

theorem check_community_constraint_iff (c : Candidate) (cons : HardConstraints) :
    check_community_constraint c cons = true ↔ community_ok c cons := by
  rw [check_community_constraint, community_ok]
  cases ht : truthyList cons.required_communities <;> simp [ht]

theorem check_religiosity_constraint_iff (c : Candidate) (cons : HardConstraints) :
    check_religiosity_constraint c cons = true ↔ religiosity_ok c cons := by
  rw [check_religiosity_constraint, religiosity_ok]
  cases ht : truthyList cons.required_religiosity <;> simp [ht]

theorem check_language_constraint_iff (c : Candidate) (cons : HardConstraints) :
    check_language_constraint c cons = true ↔ language_ok c cons := by
  rw [check_language_constraint, language_ok]
  cases ht : truthyList cons.required_languages <;>
    simp [ht, List.any_eq_true]

/-- C6 amended: `is_valid_match` passes exactly when every constraint that
is set to a truthy value is satisfied (a `max_distance_km` of 0 and empty
required lists impose no restriction, like unset fields), and its reason
is always the first violated check in the order age, distance, smoking,
community, religiosity, language. -/
theorem c6_amended (geo : String → String → Except Unit ℚ)
    (candidate requester : Candidate) (preferences : Preferences) :
    ((is_valid_match geo candidate requester preferences).1 = true ↔
      (age_ok candidate preferences.must_have ∧
       distance_ok geo candidate requester.location preferences.must_have ∧
       smoking_ok candidate preferences.must_have ∧
       community_ok candidate preferences.must_have ∧
       religiosity_ok candidate preferences.must_have ∧
       language_ok candidate preferences.must_have)) ∧
    (is_valid_match geo candidate requester preferences).2 =
      spec_first_reason geo candidate requester preferences := by
  have hA := check_age_constraint_iff candidate preferences.must_have
  have hD := check_distance_constraint_iff geo candidate requester.location
    preferences.must_have
  have hS := check_smoking_constraint_iff candidate preferences.must_have
  have hC := check_community_constraint_iff candidate preferences.must_have
  have hR := check_religiosity_constraint_iff candidate preferences.must_have
  have hL := check_language_constraint_iff candidate preferences.must_have
  rw [is_valid_match, spec_first_reason]
  by_cases h1 : age_ok candidate preferences.must_have
  case neg =>
    rw [if_pos (fun hc => h1 (hA.mp hc)), if_pos h1]
    exact ⟨⟨fun hf => absurd hf (by simp), fun hconj => absurd hconj.1 h1⟩, rfl⟩
  case pos =>
  rw [if_neg (not_not_intro (hA.mpr h1)), if_neg (not_not_intro h1)]
  by_cases h2 : distance_ok geo candidate requester.location preferences.must_have
  case neg =>
    rw [if_pos (fun hc => h2 (hD.mp hc)), if_pos h2]
    exact ⟨⟨fun hf => absurd hf (by simp), fun hconj => absurd hconj.2.1 h2⟩, rfl⟩
  case pos =>
  rw [if_neg (not_not_intro (hD.mpr h2)), if_neg (not_not_intro h2)]
  by_cases h3 : smoking_ok candidate preferences.must_have
  case neg =>
    rw [if_pos (fun hc => h3 (hS.mp hc)), if_pos h3]
    exact ⟨⟨fun hf => absurd hf (by simp), fun hconj => absurd hconj.2.2.1 h3⟩, rfl⟩
  case pos =>
  rw [if_neg (not_not_intro (hS.mpr h3)), if_neg (not_not_intro h3)]
  by_cases h4 : community_ok candidate preferences.must_have
  case neg =>
    rw [if_pos (fun hc => h4 (hC.mp hc)), if_pos h4]
    exact ⟨⟨fun hf => absurd hf (by simp), fun hconj => absurd hconj.2.2.2.1 h4⟩, rfl⟩
  case pos =>
  rw [if_neg (not_not_intro (hC.mpr h4)), if_neg (not_not_intro h4)]
  by_cases h5 : religiosity_ok candidate preferences.must_have
  case neg =>
    rw [if_pos (fun hc => h5 (hR.mp hc)), if_pos h5]
    exact ⟨⟨fun hf => absurd hf (by simp), fun hconj => absurd hconj.2.2.2.2.1 h5⟩, rfl⟩
  case pos =>
  rw [if_neg (not_not_intro (hR.mpr h5)), if_neg (not_not_intro h5)]
  by_cases h6 : language_ok candidate preferences.must_have
  case neg =>
    rw [if_pos (fun hc => h6 (hL.mp hc)), if_pos h6]
    exact ⟨⟨fun hf => absurd hf (by simp), fun hconj => absurd hconj.2.2.2.2.2 h6⟩, rfl⟩
  case pos =>
  rw [if_neg (not_not_intro (hL.mpr h6)), if_neg (not_not_intro h6)]
  exact ⟨⟨fun _ => ⟨h1, h2, h3, h4, h5, h6⟩, fun _ => rfl⟩, rfl⟩

/-! ### Gale-Shapley loop invariant (used by C1 and C2) -/

/-- `men_preferences[man]` (empty for unknown keys, which never occurs for
queued men). -/
@[reducible]
def prefs_of (mp : List (String × List String)) (m : String) : List String :=
  (alookup mp m).getD []

/-- Rank of `x` in woman `w`'s ranking dict; `none` when the woman is
unknown or `x` is unranked — the `float('inf')` default. -/
@[reducible]
def rank_of (wp : List (String × List String)) (w x : String) : Option Nat :=
  match alookup wp w with
  | none => none
  | some wprefs => alookup (build_ranking wprefs) x

theorem rank_lt_some_some (a b : Nat) : rank_lt (some a) (some b) = true ↔ a < b := by
  simp [rank_lt]

/-- Invariant maintained by every iteration of the deferred-acceptance
loop. -/
structure GSInv (mp wp : List (String × List String)) (s : GSState) : Prop where
  mp_nodup : (akeys s.men_partner).Nodup
  wp_nodup : (akeys s.women_partner).Nodup
  inverse : ∀ m w, alookup s.men_partner m = some w ↔ alookup s.women_partner w = some m
  free_nodup : s.free_men.Nodup
  free_unmatched : ∀ m ∈ s.free_men, alookup s.men_partner m = none
  free_keys : ∀ m ∈ s.free_men, m ∈ akeys mp
  partner_keys : ∀ m w, alookup s.men_partner m = some w → m ∈ akeys mp
  partner_proposed : ∀ m w, alookup s.men_partner m = some w →
    ∃ i, i < s.next_proposal m ∧ ∃ hi : i < (prefs_of mp m).length,
      (prefs_of mp m).get ⟨i, hi⟩ = w
  proposed_consequence : ∀ m j, j < s.next_proposal m →
    ∀ hl : j < (prefs_of mp m).length, ∀ r,
    rank_of wp ((prefs_of mp m).get ⟨j, hl⟩) m = some r →
    ∃ p rp, alookup s.women_partner ((prefs_of mp m).get ⟨j, hl⟩) = some p ∧
      rank_of wp ((prefs_of mp m).get ⟨j, hl⟩) p = some rp ∧ rp ≤ r

theorem gs_initial_inv (mp wp : List (String × List String))
    (hmp : (akeys mp).Nodup) : GSInv mp wp (gs_initial mp) := by
  refine ⟨?_, ?_, ?_, ?_, ?_, ?_, ?_, ?_, ?_⟩
  · simp [gs_initial, akeys]
  · simp [gs_initial, akeys]
  · intro m w
    simp [gs_initial, alookup]
  · exact hmp
  · intro m _
    rfl
  · intro m hm
    exact hm
  · intro m w h
    simp [gs_initial, alookup] at h
  · intro m w h
    simp [gs_initial, alookup] at h
  · intro m j hj
    simp [gs_initial] at hj

theorem gs_inv_drop (mp wp : List (String × List String)) (man : String)
    (rest : List String) (s : GSState) (inv : GSInv mp wp s)
    (hfree : s.free_men = man :: rest) :
    GSInv mp wp (GSState.mk s.men_partner s.women_partner s.next_proposal
      rest (s.iteration + 1)) := by
  have hndfree := inv.free_nodup
  rw [hfree] at hndfree
  refine ⟨inv.mp_nodup, inv.wp_nodup, inv.inverse, hndfree.of_cons, ?_, ?_,
    inv.partner_keys, inv.partner_proposed, inv.proposed_consequence⟩
  · intro m hm
    exact inv.free_unmatched m (by rw [hfree]; exact List.mem_cons_of_mem _ hm)
  · intro m hm
    exact inv.free_keys m (by rw [hfree]; exact List.mem_cons_of_mem _ hm)

theorem gs_inv_requeue (mp wp : List (String × List String)) (man : String)
    (rest : List String) (s : GSState) (inv : GSInv mp wp s)
    (hfree : s.free_men = man :: rest)
    (hi : s.next_proposal man < (prefs_of mp man).length)
    (hcons : ∀ r,
      rank_of wp ((prefs_of mp man).get ⟨s.next_proposal man, hi⟩) man = some r →
      ∃ p rp,
        alookup s.women_partner
          ((prefs_of mp man).get ⟨s.next_proposal man, hi⟩) = some p ∧
        rank_of wp ((prefs_of mp man).get ⟨s.next_proposal man, hi⟩) p = some rp ∧
        rp ≤ r) :
    GSInv mp wp (GSState.mk s.men_partner s.women_partner
      (fun x => if x = man then s.next_proposal man + 1 else s.next_proposal x)
      (rest ++ [man]) (s.iteration + 1)) := by
  have hndfree := inv.free_nodup
  rw [hfree] at hndfree
  have hman_notin : man ∉ rest := (List.nodup_cons.mp hndfree).1
  refine ⟨inv.mp_nodup, inv.wp_nodup, inv.inverse, ?_, ?_, ?_, inv.partner_keys,
    ?_, ?_⟩
  · rw [List.nodup_append]
    exact ⟨hndfree.of_cons, List.nodup_singleton _,
      by simpa using fun h => hman_notin h⟩
  · intro m hm
    rcases List.mem_append.mp hm with h | h
    · exact inv.free_unmatched m (by rw [hfree]; exact List.mem_cons_of_mem _ h)
    · have hmm : m = man := by simpa using h
      subst hmm
      exact inv.free_unmatched m (by rw [hfree]; exact List.mem_cons_self _ _)
  · intro m hm
    rcases List.mem_append.mp hm with h | h
    · exact inv.free_keys m (by rw [hfree]; exact List.mem_cons_of_mem _ h)
    · have hmm : m = man := by simpa using h
      subst hmm
      exact inv.free_keys m (by rw [hfree]; exact List.mem_cons_self _ _)
  · intro m w h
    obtain ⟨i, hilt, hl, hget⟩ := inv.partner_proposed m w h
    refine ⟨i, ?_, hl, hget⟩
    dsimp only
    by_cases hm : m = man
    · subst hm
      rw [if_pos rfl]
      omega
    · rw [if_neg hm]
      exact hilt
  · intro m j hj hl r hr
    dsimp only at hj
    by_cases hm : m = man
    · subst hm
      rw [if_pos rfl] at hj
      by_cases hji : j = s.next_proposal m
      · subst hji
        exact hcons r hr
      · have hj2 : j < s.next_proposal m := by omega
        exact inv.proposed_consequence m j hj2 hl r hr
    · rw [if_neg hm] at hj
      exact inv.proposed_consequence m j hj hl r hr

theorem gs_inv_match (mp wp : List (String × List String)) (man : String)
    (rest : List String) (s : GSState) (inv : GSInv mp wp s)
    (hfree : s.free_men = man :: rest)
    (hi : s.next_proposal man < (prefs_of mp man).length)
    (woman : String)
    (hwoman : (prefs_of mp man).get ⟨s.next_proposal man, hi⟩ = woman)
    (mrank : Nat) (hrank : rank_of wp woman man = some mrank)
    (hwnone : alookup s.women_partner woman = none) :
    GSInv mp wp (GSState.mk (aupd s.men_partner man woman)
      (aupd s.women_partner woman man)
      (fun x => if x = man then s.next_proposal man + 1 else s.next_proposal x)
      rest (s.iteration + 1)) := by
  have hndfree := inv.free_nodup
  rw [hfree] at hndfree
  have hman_notin : man ∉ rest := (List.nodup_cons.mp hndfree).1
  have hman_free : man ∈ s.free_men := by
    rw [hfree]; exact List.mem_cons_self _ _
  have hman_un : alookup s.men_partner man = none := inv.free_unmatched man hman_free
  have hman_key : man ∈ akeys mp := inv.free_keys man hman_free
  refine ⟨?_, ?_, ?_, hndfree.of_cons, ?_, ?_, ?_, ?_, ?_⟩
  · dsimp only
    exact nodup_akeys_aupd _ _ _ inv.mp_nodup
  · dsimp only
    exact nodup_akeys_aupd _ _ _ inv.wp_nodup
  · intro m2 w2
    dsimp only
    rw [alookup_aupd, alookup_aupd]
    by_cases hm2 : man = m2
    · subst hm2
      rw [if_pos rfl]
      by_cases hw2 : woman = w2
      · subst hw2
        rw [if_pos rfl]
        simp
      · rw [if_neg hw2]
        constructor
        · intro hsome
          exact absurd (by simpa using hsome : woman = w2) hw2
        · intro hsome
          have h2 := (inv.inverse man w2).mpr hsome
          rw [hman_un] at h2
          exact absurd h2 (by simp)
    · rw [if_neg hm2]
      by_cases hw2 : woman = w2
      · subst hw2
        rw [if_pos rfl]
        constructor
        · intro hsome
          have h2 := (inv.inverse m2 woman).mp hsome
          rw [hwnone] at h2
          exact absurd h2 (by simp)
        · intro hsome
          exact absurd (by simpa using hsome : man = m2) hm2
      · rw [if_neg hw2]
        exact inv.inverse m2 w2
  · intro m hm
    dsimp only at hm ⊢
    rw [alookup_aupd]
    have hne : ¬ man = m := fun he => hman_notin (he ▸ hm)
    rw [if_neg hne]
    exact inv.free_unmatched m (by rw [hfree]; exact List.mem_cons_of_mem _ hm)
  · intro m hm
    exact inv.free_keys m (by rw [hfree]; exact List.mem_cons_of_mem _ hm)
  · intro m w h
    dsimp only at h
    rw [alookup_aupd] at h
    by_cases hm : man = m
    · exact hm ▸ hman_key
    · rw [if_neg hm] at h
      exact inv.partner_keys m w h
  · intro m w h
    dsimp only at h ⊢
    rw [alookup_aupd] at h
    by_cases hm : man = m
    · subst hm
      rw [if_pos rfl] at h
      obtain hw : woman = w := by simpa using h
      subst hw
      rw [if_pos rfl]
      exact ⟨s.next_proposal man, by omega, hi, hwoman⟩
    · rw [if_neg hm] at h
      obtain ⟨i, hilt, hl, hget⟩ := inv.partner_proposed m w h
      have hne : ¬ m = man := fun he => hm he.symm
      rw [if_neg hne]
      exact ⟨i, hilt, hl, hget⟩
  · intro m j hj hl r hr
    dsimp only at hj ⊢
    rw [alookup_aupd]
    have hold : j < s.next_proposal m →
        ∃ p rp,
          (if woman = (prefs_of mp m).get ⟨j, hl⟩ then some man
            else alookup s.women_partner ((prefs_of mp m).get ⟨j, hl⟩)) = some p ∧
          rank_of wp ((prefs_of mp m).get ⟨j, hl⟩) p = some rp ∧ rp ≤ r := by
      intro hj2
      obtain ⟨p, rp, hp, hrp, hle⟩ := inv.proposed_consequence m j hj2 hl r hr
      by_cases hwt : woman = (prefs_of mp m).get ⟨j, hl⟩
      · rw [← hwt] at hp
        rw [hwnone] at hp
        exact absurd hp (by simp)
      · rw [if_neg hwt]
        exact ⟨p, rp, hp, hrp, hle⟩
    by_cases hm : m = man
    · subst hm
      rw [if_pos rfl] at hj
      by_cases hji : j = s.next_proposal m
      · subst hji
        have htgt : (prefs_of mp m).get ⟨s.next_proposal m, hl⟩ = woman := hwoman
        rw [htgt] at hr ⊢
        rw [hrank] at hr
        obtain hrr : mrank = r := by simpa using hr
        rw [if_pos rfl]
        exact ⟨m, mrank, rfl, hrank, by omega⟩
      · exact hold (by omega)
    · rw [if_neg hm] at hj
      exact hold hj

theorem gs_inv_displace (mp wp : List (String × List String)) (man : String)
    (rest : List String) (s : GSState) (inv : GSInv mp wp s)
    (hfree : s.free_men = man :: rest)
    (hi : s.next_proposal man < (prefs_of mp man).length)
    (woman : String)
    (hwoman : (prefs_of mp man).get ⟨s.next_proposal man, hi⟩ = woman)
    (mrank : Nat) (hrank : rank_of wp woman man = some mrank)
    (current : String) (hwcur : alookup s.women_partner woman = some current)
    (hlt : rank_lt (some mrank) (rank_of wp woman current) = true) :
    GSInv mp wp (GSState.mk
      (aerase (aupd s.men_partner man woman) current)
      (aupd s.women_partner woman man)
      (fun x => if x = man then s.next_proposal man + 1 else s.next_proposal x)
      (rest ++ [current]) (s.iteration + 1)) := by
  have hndfree := inv.free_nodup
  rw [hfree] at hndfree
  have hman_notin : man ∉ rest := (List.nodup_cons.mp hndfree).1
  have hman_free : man ∈ s.free_men := by
    rw [hfree]; exact List.mem_cons_self _ _
  have hman_un : alookup s.men_partner man = none := inv.free_unmatched man hman_free
  have hman_key : man ∈ akeys mp := inv.free_keys man hman_free
  have hcur_mp : alookup s.men_partner current = some woman :=
    (inv.inverse current woman).mpr hwcur
  have hcur_key : current ∈ akeys mp := inv.partner_keys current woman hcur_mp
  have hman_ne_cur : ¬ man = current := by
    intro he
    rw [he, hcur_mp] at hman_un
    exact absurd hman_un (by simp)
  have hcur_not_free : current ∉ s.free_men := by
    intro hmem
    have h2 := inv.free_unmatched current hmem
    rw [hcur_mp] at h2
    exact absurd h2 (by simp)
  have hcur_notin_rest : current ∉ rest := fun h =>
    hcur_not_free (by rw [hfree]; exact List.mem_cons_of_mem _ h)
  have hnd1 : (akeys (aupd s.men_partner man woman)).Nodup :=
    nodup_akeys_aupd _ _ _ inv.mp_nodup
  have hMP : ∀ x, alookup (aerase (aupd s.men_partner man woman) current) x =
      if current = x then none
      else if man = x then some woman else alookup s.men_partner x := by
    intro x
    rw [alookup_aerase _ _ _ hnd1, alookup_aupd]
  have hrlt : ∀ rp, rank_of wp woman current = some rp → mrank < rp := by
    intro rp hrp
    rw [hrp] at hlt
    exact (rank_lt_some_some _ _).mp hlt
  refine ⟨?_, ?_, ?_, ?_, ?_, ?_, ?_, ?_, ?_⟩
  · dsimp only
    exact nodup_akeys_aerase _ _ hnd1
  · dsimp only
    exact nodup_akeys_aupd _ _ _ inv.wp_nodup
  · intro x y
    dsimp only
    rw [hMP x, alookup_aupd]
    by_cases hcx : current = x
    · subst hcx
      rw [if_pos rfl]
      constructor
      · intro hsome
        exact absurd hsome (by simp)
      · intro hsome
        by_cases hwy : woman = y
        · rw [if_pos hwy] at hsome
          exact absurd (by simpa using hsome : man = current) hman_ne_cur
        · rw [if_neg hwy] at hsome
          have h2 := (inv.inverse current y).mpr hsome
          rw [hcur_mp] at h2
          exact absurd (by simpa using h2 : woman = y) hwy
    · rw [if_neg hcx]
      by_cases hmx : man = x
      · subst hmx
        rw [if_pos rfl]
        by_cases hwy : woman = y
        · subst hwy
          rw [if_pos rfl]
          simp
        · rw [if_neg hwy]
          constructor
          · intro hsome
            exact absurd (by simpa using hsome : woman = y) hwy
          · intro hsome
            have h2 := (inv.inverse man y).mpr hsome
            rw [hman_un] at h2
            exact absurd h2 (by simp)
      · rw [if_neg hmx]
        by_cases hwy : woman = y
        · subst hwy
          rw [if_pos rfl]
          constructor
          · intro hsome
            have h2 := (inv.inverse x woman).mp hsome
            rw [hwcur] at h2
            exact absurd (by simpa using h2 : current = x) hcx
          · intro hsome
            exact absurd (by simpa using hsome : man = x) hmx
        · rw [if_neg hwy]
          exact inv.inverse x y
  · dsimp only
    rw [List.nodup_append]
    exact ⟨hndfree.of_cons, List.nodup_singleton _,
      by simpa using fun h => hcur_notin_rest h⟩
  · intro m hm
    dsimp only at hm ⊢
    rw [hMP m]
    rcases List.mem_append.mp hm with h | h
    · have hne1 : ¬ current = m := fun he => hcur_notin_rest (he ▸ h)
      have hne2 : ¬ man = m := fun he => hman_notin (he ▸ h)
      rw [if_neg hne1, if_neg hne2]
      exact inv.free_unmatched m (by rw [hfree]; exact List.mem_cons_of_mem _ h)
    · have hmc : m = current := by simpa using h
      subst hmc
      rw [if_pos rfl]
  · intro m hm
    dsimp only at hm
    rcases List.mem_append.mp hm with h | h
    · exact inv.free_keys m (by rw [hfree]; exact List.mem_cons_of_mem _ h)
    · have hmc : m = current := by simpa using h
      subst hmc
      exact hcur_key
  · intro m w h
    dsimp only at h
    rw [hMP m] at h
    by_cases hcm : current = m
    · rw [if_pos hcm] at h
      exact absurd h (by simp)
    · rw [if_neg hcm] at h
      by_cases hmm : man = m
      · exact hmm ▸ hman_key
      · rw [if_neg hmm] at h
        exact inv.partner_keys m w h
  · intro m w h
    dsimp only at h ⊢
    rw [hMP m] at h
    by_cases hcm : current = m
    · rw [if_pos hcm] at h
      exact absurd h (by simp)
    · rw [if_neg hcm] at h
      by_cases hmm : man = m
      · subst hmm
        rw [if_pos rfl] at h
        obtain hw : woman = w := by simpa using h
        subst hw
        rw [if_pos rfl]
        exact ⟨s.next_proposal man, by omega, hi, hwoman⟩
      · rw [if_neg hmm] at h
        obtain ⟨i, hilt, hl, hget⟩ := inv.partner_proposed m w h
        have hne : ¬ m = man := fun he => hmm he.symm
        rw [if_neg hne]
        exact ⟨i, hilt, hl, hget⟩
  · intro m j hj hl r hr
    dsimp only at hj ⊢
    rw [alookup_aupd]
    have hold : j < s.next_proposal m →
        ∃ p rp,
          (if woman = (prefs_of mp m).get ⟨j, hl⟩ then some man
            else alookup s.women_partner ((prefs_of mp m).get ⟨j, hl⟩)) = some p ∧
          rank_of wp ((prefs_of mp m).get ⟨j, hl⟩) p = some rp ∧ rp ≤ r := by
      intro hj2
      obtain ⟨p, rp, hp, hrp, hle⟩ := inv.proposed_consequence m j hj2 hl r hr
      by_cases hwt : woman = (prefs_of mp m).get ⟨j, hl⟩
      · rw [← hwt] at hp hrp
        rw [hwcur] at hp
        obtain hpc : current = p := by simpa using hp
        subst hpc
        have hmr : mrank < rp := hrlt rp hrp
        rw [← hwt]
        rw [if_pos rfl]
        exact ⟨man, mrank, rfl, hrank, by omega⟩
      · rw [if_neg hwt]
        exact ⟨p, rp, hp, hrp, hle⟩
    by_cases hm : m = man
    · subst hm
      rw [if_pos rfl] at hj
      by_cases hji : j = s.next_proposal m
      · subst hji
        have htgt : (prefs_of mp m).get ⟨s.next_proposal m, hl⟩ = woman := hwoman
        rw [htgt] at hr ⊢
        rw [hrank] at hr
        obtain hrr : mrank = r := by simpa using hr
        rw [if_pos rfl]
        exact ⟨m, mrank, rfl, hrank, by omega⟩
      · exact hold (by omega)
    · rw [if_neg hm] at hj
      exact hold hj

theorem gs_step_inv (mp wp : List (String × List String)) (man : String)
    (rest : List String) (s : GSState) (inv : GSInv mp wp s)
    (hfree : s.free_men = man :: rest) :
    GSInv mp wp (gs_step mp wp man rest s) := by
  rw [gs_step]
  by_cases hex : s.next_proposal man ≥ ((alookup mp man).getD []).length
  · rw [if_pos hex]
    exact gs_inv_drop mp wp man rest s inv hfree
  · rw [if_neg hex]
    dsimp only
    have hi : s.next_proposal man < (prefs_of mp man).length := Nat.lt_of_not_le hex
    have hwoman : (prefs_of mp man).get ⟨s.next_proposal man, hi⟩ =
        ((alookup mp man).getD []).getD (s.next_proposal man) "" := by
      rw [List.getD_eq_getElem?_getD]
      rw [List.getElem?_eq_getElem hi]
      rfl
    cases hwp :
        alookup wp (((alookup mp man).getD []).getD (s.next_proposal man) "") with
    | none =>
      dsimp only
      refine gs_inv_requeue mp wp man rest s inv hfree hi ?_
      intro r hr
      rw [hwoman] at hr
      unfold rank_of at hr
      rw [hwp] at hr
      exact absurd hr (by simp)
    | some wprefs =>
      dsimp only
      cases hrk : alookup (build_ranking wprefs) man with
      | none =>
        dsimp only
        refine gs_inv_requeue mp wp man rest s inv hfree hi ?_
        intro r hr
        rw [hwoman] at hr
        unfold rank_of at hr
        rw [hwp] at hr
        dsimp only at hr
        rw [hrk] at hr
        exact absurd hr (by simp)
      | some new_rank =>
        dsimp only
        have hrank : rank_of wp
            (((alookup mp man).getD []).getD (s.next_proposal man) "") man =
            some new_rank := by
          unfold rank_of
          rw [hwp]
          dsimp only
          exact hrk
        cases hpart : alookup s.women_partner
            (((alookup mp man).getD []).getD (s.next_proposal man) "") with
        | none =>
          dsimp only
          exact gs_inv_match mp wp man rest s inv hfree hi _ hwoman new_rank
            hrank hpart
        | some current =>
          dsimp only
          by_cases hcond :
              rank_lt (some new_rank) (alookup (build_ranking wprefs) current) = true
          · rw [if_pos hcond]
            refine gs_inv_displace mp wp man rest s inv hfree hi _ hwoman new_rank
              hrank current hpart ?_
            unfold rank_of
            rw [hwp]
            dsimp only
            exact hcond
          · rw [if_neg hcond]
            refine gs_inv_requeue mp wp man rest s inv hfree hi ?_
            intro r hr
            rw [hwoman] at hr ⊢
            rw [hrank] at hr
            obtain hrr : new_rank = r := by simpa using hr
            cases hcr : alookup (build_ranking wprefs) current with
            | none =>
              rw [hcr] at hcond
              exact absurd (by rw [rank_lt] : rank_lt (some new_rank) none = true) hcond
            | some crank =>
              rw [hcr] at hcond
              have hle : crank ≤ new_rank := by
                by_contra hgt
                exact hcond ((rank_lt_some_some _ _).mpr (by omega))
              refine ⟨current, crank, hpart, ?_, by omega⟩
              unfold rank_of
              rw [hwp]
              dsimp only
              exact hcr

theorem gs_loop_inv (mp wp : List (String × List String)) (fuel : Nat)
    (s : GSState) (inv : GSInv mp wp s) :
    GSInv mp wp (gs_loop mp wp fuel s) := by
  induction fuel generalizing s with
  | zero => exact inv
  | succ n ih =>
    rw [gs_loop]
    cases hf : s.free_men with
    | nil => exact inv
    | cons man rest =>
      dsimp only
      exact ih _ (gs_step_inv mp wp man rest s inv hf)

theorem gs_final_inv (mp wp : List (String × List String))
    (hmp : (akeys mp).Nodup) : GSInv mp wp (gs_final mp wp) :=
  gs_loop_inv mp wp _ _ (gs_initial_inv mp wp hmp)

/-! ### Claim C2 -/

/-- C2: for every pair of preference dicts (with the man-side keys unique,
as dict keys are), the mapping returned by `gale_shapley` is a partial
bijection: no man appears twice as a key and no woman appears twice as a
partner. -/
theorem c2_gale_shapley_partial_bijection (mp wp : List (String × List String))
    (hmp : (akeys mp).Nodup) :
    ((gale_shapley mp wp).map Prod.fst).Nodup ∧
    ((gale_shapley mp wp).map Prod.snd).Nodup := by
  have inv := gs_final_inv mp wp hmp
  have hkeys : ((gale_shapley mp wp).map Prod.fst).Nodup := inv.mp_nodup
  refine ⟨hkeys, ?_⟩
  have hentry : (gale_shapley mp wp).Nodup := List.Nodup.of_map _ hkeys
  refine List.Nodup.map_on ?_ hentry
  intro e1 he1 e2 he2 heq
  have h1 : alookup (gale_shapley mp wp) e1.1 = some e1.2 :=
    alookup_eq_some_of_mem _ _ _ inv.mp_nodup (Prod.mk.eta ▸ he1)
  have h2 : alookup (gale_shapley mp wp) e2.1 = some e2.2 :=
    alookup_eq_some_of_mem _ _ _ inv.mp_nodup (Prod.mk.eta ▸ he2)
  have w1 := (inv.inverse e1.1 e1.2).mp h1
  have w2 := (inv.inverse e2.1 e2.2).mp h2
  rw [heq] at w1
  rw [w1] at w2
  obtain hfst : e1.1 = e2.1 := by simpa using w2
  exact Prod.ext hfst heq

/-- Witness for C2. -/
theorem c2_witness :
    (akeys [("m1", (["w1"] : List String))]).Nodup ∧
    (((gale_shapley [("m1", ["w1"])] [("w1", ["m1"])]).map Prod.fst).Nodup ∧
     ((gale_shapley [("m1", ["w1"])] [("w1", ["m1"])]).map Prod.snd).Nodup) :=
  ⟨by decide,
   c2_gale_shapley_partial_bijection [("m1", ["w1"])] [("w1", ["m1"])] (by decide)⟩

/-! ### Claim C1 — support lemmas -/

theorem validate_stability_nil (scores : List MatchScore) :
    validate_stability [] scores = true := by
  rw [validate_stability]
  refine List.all_eq_true.mpr ?_
  intro s _
  rfl

theorem akeys_map_keyed {γ : Type} (l : List (String × Candidate))
    (g : String → γ) :
    akeys (l.map (fun p => (p.1, g p.1))) = akeys l := by
  induction l with
  | nil => rfl
  | cons p t ih =>
    rw [List.map_cons, akeys_cons]
    rw [show akeys (p :: t) = p.1 :: akeys t from by
      obtain ⟨a, b⟩ := p; rfl]
    rw [ih]

theorem list_get_congr (l1 l2 : List String) (h : l1 = l2) (i : Nat)
    (h1 : i < l1.length) :
    ∃ h2 : i < l2.length, l2.get ⟨i, h2⟩ = l1.get ⟨i, h1⟩ := by
  subst h
  exact ⟨h1, rfl⟩

theorem ids_of_map_triple (ms : List (String × String))
    (g : String × String → ℚ) :
    ids_of (ms.map (fun mw => (mw.1, mw.2, g mw))) =
      ms.bind (fun mw => [mw.1, mw.2]) := by
  induction ms with
  | nil => rfl
  | cons e t ih =>
    rw [List.map_cons, ids_of_cons, ih]
    rfl

theorem bind_pair_nodup (ms : List (String × String))
    (hfst : (ms.map Prod.fst).Nodup) (hsnd : (ms.map Prod.snd).Nodup)
    (hdisj : ∀ x ∈ ms.map Prod.fst, ∀ y ∈ ms.map Prod.snd, x ≠ y) :
    (ms.bind (fun mw => [mw.1, mw.2])).Nodup := by
  induction ms with
  | nil => simp
  | cons e t ih =>
    show (e.1 :: e.2 :: (t.bind fun mw => [mw.1, mw.2])).Nodup
    have hfst' : (t.map Prod.fst).Nodup := by
      rw [List.map_cons] at hfst
      exact hfst.of_cons
    have hsnd' : (t.map Prod.snd).Nodup := by
      rw [List.map_cons] at hsnd
      exact hsnd.of_cons
    have hdisj' : ∀ x ∈ t.map Prod.fst, ∀ y ∈ t.map Prod.snd, x ≠ y := by
      intro x hx y hy
      exact hdisj x (by rw [List.map_cons]; exact List.mem_cons_of_mem _ hx) y
        (by rw [List.map_cons]; exact List.mem_cons_of_mem _ hy)
    have hne12 : e.1 ≠ e.2 := hdisj e.1 (by simp) e.2 (by simp)
    have he1_notfst : e.1 ∉ t.map Prod.fst := by
      rw [List.map_cons] at hfst
      exact (List.nodup_cons.mp hfst).1
    have he2_notsnd : e.2 ∉ t.map Prod.snd := by
      rw [List.map_cons] at hsnd
      exact (List.nodup_cons.mp hsnd).1
    have hmem_bind : ∀ x, x ∈ t.bind (fun mw => [mw.1, mw.2]) →
        x ∈ t.map Prod.fst ∨ x ∈ t.map Prod.snd := by
      intro x hx
      rw [List.mem_bind] at hx
      obtain ⟨mw, hmw, hxm⟩ := hx
      rcases List.mem_cons.mp hxm with h1 | h1
      · exact Or.inl (h1 ▸ List.mem_map_of_mem Prod.fst hmw)
      · have h2 : x = mw.2 := by simpa using h1
        exact Or.inr (h2 ▸ List.mem_map_of_mem Prod.snd hmw)
    refine List.nodup_cons.mpr ⟨?_, List.nodup_cons.mpr ⟨?_, ih hfst' hsnd' hdisj'⟩⟩
    · intro hmem
      rcases List.mem_cons.mp hmem with h1 | h1
      · exact hne12 h1
      · rcases hmem_bind e.1 h1 with h2 | h2
        · exact he1_notfst h2
        · exact hdisj e.1 (by simp) e.1
            (by rw [List.map_cons]; exact List.mem_cons_of_mem _ h2) rfl
    · intro hmem
      rcases hmem_bind e.2 hmem with h2 | h2
      · exact hdisj e.2
          (by rw [List.map_cons]; exact List.mem_cons_of_mem _ h2) e.2 (by simp) rfl
      · exact he2_notsnd h2

theorem mem_map_triple (ms : List (String × String)) (g : String × String → ℚ)
    (m w : String) (c : ℚ) :
    (m, w, c) ∈ ms.map (fun mw => (mw.1, mw.2, g mw)) ↔
      (m, w) ∈ ms ∧ c = g (m, w) := by
  rw [List.mem_map]
  constructor
  · rintro ⟨mw, hmw, heq⟩
    rw [Prod.mk.injEq, Prod.mk.injEq] at heq
    obtain ⟨h1, h2, h3⟩ := heq
    refine ⟨?_, ?_⟩
    · rw [← h1, ← h2]
      exact hmw
    · rw [← h3, ← h1, ← h2]
  · rintro ⟨hmw, hc⟩
    exact ⟨(m, w), hmw, by rw [hc]⟩

/-- The list built by the main branch of `find_stable_matches`: the
Gale-Shapley matches over the filtered scores, decorated with their
looked-up scores and sorted descending. -/
def fsm_result (fscores : List MatchScore) (candidates : List (String × Candidate)) :
    List (String × String × ℚ) :=
  sortDescBy (fun t => t.2.2)
    ((gale_shapley (build_preference_lists fscores candidates).1
        (build_preference_lists fscores candidates).2).map
      (fun mw => (mw.1, mw.2, match_score_of fscores mw.1 mw.2)))

theorem gender_of_men_key (candidates : List (String × Candidate))
    (hnd : (akeys candidates).Nodup) (x : String) (c : Candidate)
    (hc : alookup candidates x = some c) (hx : x ∈ akeys (men_of candidates)) :
    c.gender = Gender.M := by
  obtain ⟨cm, hcm⟩ := Option.isSome_iff_exists.mp
    ((alookup_isSome_mem_akeys _ _).mpr hx)
  obtain ⟨h1, h2⟩ := (alookup_men_of candidates hnd x cm).mp hcm
  rw [hc] at h1
  obtain rfl : cm = c := (Option.some.inj h1).symm
  exact h2

theorem gender_of_women_key (candidates : List (String × Candidate))
    (hnd : (akeys candidates).Nodup) (x : String) (c : Candidate)
    (hc : alookup candidates x = some c) (hx : x ∈ akeys (women_of candidates)) :
    c.gender = Gender.F := by
  obtain ⟨cw, hcw⟩ := Option.isSome_iff_exists.mp
    ((alookup_isSome_mem_akeys _ _).mpr hx)
  obtain ⟨h1, h2⟩ := (alookup_women_of candidates hnd x cw).mp hcw
  rw [hc] at h1
  obtain rfl : cw = c := (Option.some.inj h1).symm
  exact h2

/-- Every pair in the `gale_shapley` output over the lists built by
`build_preference_lists` joins a man key to a woman key, and the man did
score the woman (forward direction) in the filtered score list. -/
theorem gs_matched_facts (fscores : List MatchScore)
    (candidates : List (String × Candidate)) (hnd : (akeys candidates).Nodup)
    (m w : String)
    (h : alookup (gale_shapley (build_preference_lists fscores candidates).1
          (build_preference_lists fscores candidates).2) m = some w) :
    m ∈ akeys (men_of candidates) ∧ w ∈ akeys (women_of candidates) ∧
      ∃ s ∈ fscores, s.candidate_a_id = m ∧ s.candidate_b_id = w := by
  have hakeysM : akeys (build_preference_lists fscores candidates).1 =
      akeys (men_of candidates) :=
    akeys_map_keyed (men_of candidates)
      (fun q => build_pref_list fscores (women_of candidates) q)
  have hndmp : (akeys (build_preference_lists fscores candidates).1).Nodup := by
    rw [hakeysM]
    exact nodup_akeys_filter candidates _ hnd
  have inv := gs_final_inv (build_preference_lists fscores candidates).1
    (build_preference_lists fscores candidates).2 hndmp
  have h' : alookup (gs_final (build_preference_lists fscores candidates).1
      (build_preference_lists fscores candidates).2).men_partner m = some w := h
  have hm_mp : m ∈ akeys (build_preference_lists fscores candidates).1 :=
    inv.partner_keys m w h'
  have hm_men : m ∈ akeys (men_of candidates) := hakeysM ▸ hm_mp
  have hMPlk : alookup (build_preference_lists fscores candidates).1 m =
      (alookup (men_of candidates) m).map
        (fun _ => build_pref_list fscores (women_of candidates) m) :=
    alookup_map_keyed (men_of candidates)
      (fun q => build_pref_list fscores (women_of candidates) q) m
  obtain ⟨cm, hcm⟩ := Option.isSome_iff_exists.mp
    ((alookup_isSome_mem_akeys (men_of candidates) m).mpr hm_men)
  have hpref : prefs_of (build_preference_lists fscores candidates).1 m =
      build_pref_list fscores (women_of candidates) m := by
    rw [prefs_of, hMPlk, hcm]
    rfl
  obtain ⟨i, hinp, hilen, hget⟩ := inv.partner_proposed m w h'
  have hw_mem : w ∈ prefs_of (build_preference_lists fscores candidates).1 m :=
    hget ▸ List.get_mem _ i hilen
  rw [hpref] at hw_mem
  obtain ⟨s, hs, ha, hb, hsome⟩ :=
    (mem_build_pref_list fscores (women_of candidates) m w).mp hw_mem
  exact ⟨hm_men, (alookup_isSome_mem_akeys _ _).mp hsome, s, hs, ha, hb⟩

/-- The partner values of the `gale_shapley` output are pairwise distinct
(no woman is assigned to two men). -/
theorem gs_partner_values_nodup (mp wp : List (String × List String))
    (hmp : (akeys mp).Nodup) :
    ((gale_shapley mp wp).map Prod.snd).Nodup := by
  have inv := gs_final_inv mp wp hmp
  have hkeys : ((gale_shapley mp wp).map Prod.fst).Nodup := inv.mp_nodup
  have hentry : (gale_shapley mp wp).Nodup := List.Nodup.of_map _ hkeys
  refine List.Nodup.map_on ?_ hentry
  intro e1 he1 e2 he2 heq
  have h1 : alookup (gale_shapley mp wp) e1.1 = some e1.2 :=
    alookup_eq_some_of_mem _ _ _ inv.mp_nodup (Prod.mk.eta ▸ he1)
  have h2 : alookup (gale_shapley mp wp) e2.1 = some e2.2 :=
    alookup_eq_some_of_mem _ _ _ inv.mp_nodup (Prod.mk.eta ▸ he2)
  have w1 := (inv.inverse e1.1 e1.2).mp h1
  have w2 := (inv.inverse e2.1 e2.2).mp h2
  rw [heq] at w1
  rw [w1] at w2
  obtain hfst : e1.1 = e2.1 := by simpa using w2
  exact Prod.ext hfst heq

/-- The id columns of the main-branch result of `find_stable_matches`
are duplicate-free: men keys are unique, partner women are unique, and
the two sides of the gender partition never share an id. -/
theorem result_ids_nodup (fscores : List MatchScore)
    (candidates : List (String × Candidate)) (hnd : (akeys candidates).Nodup) :
    (ids_of (fsm_result fscores candidates)).Nodup := by
  have hakeysM : akeys (build_preference_lists fscores candidates).1 =
      akeys (men_of candidates) :=
    akeys_map_keyed (men_of candidates)
      (fun q => build_pref_list fscores (women_of candidates) q)
  have hndmp : (akeys (build_preference_lists fscores candidates).1).Nodup := by
    rw [hakeysM]
    exact nodup_akeys_filter candidates _ hnd
  have inv := gs_final_inv (build_preference_lists fscores candidates).1
    (build_preference_lists fscores candidates).2 hndmp
  have hperm : (fsm_result fscores candidates).Perm
      ((gale_shapley (build_preference_lists fscores candidates).1
        (build_preference_lists fscores candidates).2).map
        (fun mw => (mw.1, mw.2, match_score_of fscores mw.1 mw.2))) :=
    sortDescBy_perm _ _
  have hpermids := List.Perm.bind_right (fun t => [t.1, t.2.1]) hperm
  refine (List.Perm.nodup_iff hpermids).mpr ?_
  have hrw : ids_of ((gale_shapley (build_preference_lists fscores candidates).1
      (build_preference_lists fscores candidates).2).map
      (fun mw => (mw.1, mw.2, match_score_of fscores mw.1 mw.2))) =
      (gale_shapley (build_preference_lists fscores candidates).1
        (build_preference_lists fscores candidates).2).bind
        (fun mw => [mw.1, mw.2]) :=
    ids_of_map_triple _ (fun mw => match_score_of fscores mw.1 mw.2)
  show (ids_of ((gale_shapley (build_preference_lists fscores candidates).1
      (build_preference_lists fscores candidates).2).map
      (fun mw => (mw.1, mw.2, match_score_of fscores mw.1 mw.2)))).Nodup
  rw [hrw]
  refine bind_pair_nodup _ inv.mp_nodup (gs_partner_values_nodup _ _ hndmp) ?_
  intro x hx y hy hxy
  have hx' : x ∈ akeys (gale_shapley (build_preference_lists fscores candidates).1
      (build_preference_lists fscores candidates).2) := hx
  obtain ⟨wx, hwx⟩ := Option.isSome_iff_exists.mp
    ((alookup_isSome_mem_akeys _ _).mpr hx')
  have hxmen := (gs_matched_facts fscores candidates hnd x wx hwx).1
  rw [List.mem_map] at hy
  obtain ⟨e, he, hey⟩ := hy
  have hey' : alookup (gale_shapley (build_preference_lists fscores candidates).1
      (build_preference_lists fscores candidates).2) e.1 = some e.2 :=
    alookup_eq_some_of_mem _ _ _ inv.mp_nodup (Prod.mk.eta ▸ he)
  have hywomen := (gs_matched_facts fscores candidates hnd e.1 e.2 hey').2.1
  rw [hey] at hywomen
  exact men_women_of_disjoint candidates hnd y (hxy ▸ hxmen) hywomen
/-- Core deferred-acceptance stability fact: if man `m` ended matched to
`w'`, woman `w` ended matched to `p`, both directions of the pair `(m,w)`
survive in the filtered scores, and `m` strictly prefers `w` to `w'`
(by the score key `f`), then `w` does not strictly prefer `m` to `p`. -/
theorem gs_no_blocking (fscores : List MatchScore)
    (candidates : List (String × Candidate)) (hnd : (akeys candidates).Nodup)
    (f : String → String → ℚ)
    (hfval : ∀ s ∈ fscores, s.total_score = f s.candidate_a_id s.candidate_b_id)
    (m w' w p : String)
    (hmw' : alookup (gale_shapley (build_preference_lists fscores candidates).1
        (build_preference_lists fscores candidates).2) m = some w')
    (hwp : alookup (gs_final (build_preference_lists fscores candidates).1
        (build_preference_lists fscores candidates).2).women_partner w = some p)
    (hsf : ∃ s ∈ fscores, s.candidate_a_id = m ∧ s.candidate_b_id = w)
    (hsr : ∃ s ∈ fscores, s.candidate_a_id = w ∧ s.candidate_b_id = m)
    (hlt : f m w' < f m w) :
    f w m ≤ f w p := by
  have hakeysM : akeys (build_preference_lists fscores candidates).1 =
      akeys (men_of candidates) :=
    akeys_map_keyed (men_of candidates)
      (fun q => build_pref_list fscores (women_of candidates) q)
  have hndmp : (akeys (build_preference_lists fscores candidates).1).Nodup := by
    rw [hakeysM]
    exact nodup_akeys_filter candidates _ hnd
  have inv := gs_final_inv (build_preference_lists fscores candidates).1
    (build_preference_lists fscores candidates).2 hndmp
  have hmw'' : alookup (gs_final (build_preference_lists fscores candidates).1
      (build_preference_lists fscores candidates).2).men_partner m = some w' := hmw'
  have hm_men : m ∈ akeys (men_of candidates) :=
    (gs_matched_facts fscores candidates hnd m w' hmw').1
  have hMPlk : alookup (build_preference_lists fscores candidates).1 m =
      (alookup (men_of candidates) m).map
        (fun _ => build_pref_list fscores (women_of candidates) m) :=
    alookup_map_keyed (men_of candidates)
      (fun q => build_pref_list fscores (women_of candidates) q) m
  obtain ⟨cm, hcm⟩ := Option.isSome_iff_exists.mp
    ((alookup_isSome_mem_akeys (men_of candidates) m).mpr hm_men)
  have hpref : prefs_of (build_preference_lists fscores candidates).1 m =
      build_pref_list fscores (women_of candidates) m := by
    rw [prefs_of, hMPlk, hcm]
    rfl
  have hpm : alookup (gs_final (build_preference_lists fscores candidates).1
      (build_preference_lists fscores candidates).2).men_partner p = some w :=
    (inv.inverse p w).mpr hwp
  have hw_women : w ∈ akeys (women_of candidates) :=
    (gs_matched_facts fscores candidates hnd p w hpm).2.1
  obtain ⟨i6, hi6np, hi6len, hget6⟩ := inv.partner_proposed m w' hmw''
  obtain ⟨hi6len', hget6'⟩ := list_get_congr _ _ hpref i6 hi6len
  have hget6'' : (build_pref_list fscores (women_of candidates) m).get
      ⟨i6, hi6len'⟩ = w' := hget6'.trans hget6
  obtain ⟨sf, hsf_mem, hsfa, hsfb⟩ := hsf
  have hw_mem : w ∈ build_pref_list fscores (women_of candidates) m :=
    (mem_build_pref_list fscores (women_of candidates) m w).mpr
      ⟨sf, hsf_mem, hsfa, hsfb, (alookup_isSome_mem_akeys _ _).mpr hw_women⟩
  obtain ⟨iw, hiw⟩ := List.mem_iff_get.mp hw_mem
  have hpairm : (build_pref_list fscores (women_of candidates) m).Pairwise
      (fun a b => f m b ≤ f m a) := by
    refine build_pref_list_pairwise fscores (women_of candidates) m (f m) ?_
    intro s' hs' ha'
    rw [hfval s' hs', ha']
  have hpg := List.pairwise_iff_get.mp hpairm
  have hiwlt : iw.val < i6 := by
    rcases Nat.lt_trichotomy iw.val i6 with h | h | h
    · exact h
    · exfalso
      have hfin : iw = (⟨i6, hi6len'⟩ :
          Fin (build_pref_list fscores (women_of candidates) m).length) :=
        Fin.ext h
      have hww' : w = w' := by
        rw [← hiw, hfin]
        exact hget6''
      rw [hww'] at hlt
      exact lt_irrefl _ hlt
    · exfalso
      have hle := hpg ⟨i6, hi6len'⟩ iw h
      rw [hiw, hget6''] at hle
      exact absurd hlt (not_lt.mpr hle)
  have hjlt : iw.val < (gs_final (build_preference_lists fscores candidates).1
      (build_preference_lists fscores candidates).2).next_proposal m :=
    lt_trans hiwlt hi6np
  obtain ⟨hl, hgetw⟩ := list_get_congr _ _ hpref.symm iw.val iw.isLt
  have hgetw' : (prefs_of (build_preference_lists fscores candidates).1 m).get
      ⟨iw.val, hl⟩ = w := hgetw.trans hiw
  have hWPlk : alookup (build_preference_lists fscores candidates).2 w =
      (alookup (women_of candidates) w).map
        (fun _ => build_pref_list fscores (men_of candidates) w) :=
    alookup_map_keyed (women_of candidates)
      (fun q => build_pref_list fscores (men_of candidates) q) w
  obtain ⟨cw, hcw⟩ := Option.isSome_iff_exists.mp
    ((alookup_isSome_mem_akeys (women_of candidates) w).mpr hw_women)
  have hwpw : alookup (build_preference_lists fscores candidates).2 w =
      some (build_pref_list fscores (men_of candidates) w) := by
    rw [hWPlk, hcw]
    rfl
  have hndLw : (build_pref_list fscores (men_of candidates) w).Nodup :=
    nodup_build_pref_list _ _ _
  have hrk : ∀ x, rank_of (build_preference_lists fscores candidates).2 w x =
      rank_in (build_pref_list fscores (men_of candidates) w) x := by
    intro x
    unfold rank_of
    rw [hwpw]
    exact build_ranking_lookup _ x hndLw
  obtain ⟨sr, hsr_mem, hsra, hsrb⟩ := hsr
  have hm_in_w : m ∈ build_pref_list fscores (men_of candidates) w :=
    (mem_build_pref_list fscores (men_of candidates) w m).mpr
      ⟨sr, hsr_mem, hsra, hsrb, (alookup_isSome_mem_akeys _ _).mpr hm_men⟩
  obtain ⟨r, hr⟩ := Option.isSome_iff_exists.mp (rank_in_isSome_of_mem _ m hm_in_w)
  have harg : rank_of (build_preference_lists fscores candidates).2
      ((prefs_of (build_preference_lists fscores candidates).1 m).get ⟨iw.val, hl⟩) m
      = some r := by
    rw [hgetw', hrk m]
    exact hr
  obtain ⟨p0, rp, hp0, hrp, hrple⟩ :=
    inv.proposed_consequence m iw.val hjlt hl r harg
  rw [hgetw'] at hp0 hrp
  rw [hp0] at hwp
  have hp0p : p0 = p := Option.some.inj hwp
  rw [hp0p, hrk p] at hrp
  obtain ⟨hrlen, hrget⟩ := rank_in_some_get _ m r hr
  obtain ⟨hrplen, hrpget⟩ := rank_in_some_get _ p rp hrp
  have hpairw : (build_pref_list fscores (men_of candidates) w).Pairwise
      (fun a b => f w b ≤ f w a) := by
    refine build_pref_list_pairwise fscores (men_of candidates) w (f w) ?_
    intro s' hs' ha'
    rw [hfval s' hs', ha']
  have hpgw := List.pairwise_iff_get.mp hpairw
  rcases eq_or_lt_of_le hrple with heq | hlt2
  · have hpm' : p = m := by
      rw [← hrpget, ← hrget]
      congr 1
      exact Fin.ext heq
    exact le_of_eq (by rw [hpm'])
  · have hle := hpgw ⟨rp, hrplen⟩ ⟨r, hrlen⟩ hlt2
    rw [hrget, hrpget] at hle
    exact hle
/-- C1: for every candidate dict (unique keys) and consistent, symmetrized
score set — each score's total is a symmetric function `f` of the two ids,
the reverse direction of every scored pair is also scored, and every
scored pair joins two candidates of opposite gender — the round trip
`validate_stability (find_stable_matches scores candidates min_score) scores`
returns `true`: no scored pair strictly prefers each other (by score) over
the partners assigned by the returned matching. -/
theorem c1_round_trip_stability (scores : List MatchScore)
    (candidates : List (String × Candidate)) (min_score : ℚ)
    (f : String → String → ℚ)
    (hnd : (akeys candidates).Nodup)
    (hfsym : ∀ a b, f a b = f b a)
    (hval : ∀ s ∈ scores, s.total_score = f s.candidate_a_id s.candidate_b_id)
    (hrev : ∀ s ∈ scores, ∃ s2 ∈ scores,
      s2.candidate_a_id = s.candidate_b_id ∧ s2.candidate_b_id = s.candidate_a_id)
    (hside : ∀ s ∈ scores, ∃ ca cb,
      alookup candidates s.candidate_a_id = some ca ∧
      alookup candidates s.candidate_b_id = some cb ∧ ca.gender ≠ cb.gender) :
    validate_stability (find_stable_matches scores candidates min_score) scores
      = true := by
  rw [find_stable_matches]
  dsimp only
  by_cases hfe :
      (scores.filter (fun s => decide (min_score ≤ s.total_score))).isEmpty = true
  · rw [if_pos hfe]
    exact validate_stability_nil scores
  · rw [if_neg hfe]
    by_cases hpe :
        ((build_preference_lists
          (scores.filter (fun s => decide (min_score ≤ s.total_score)))
          candidates).1.isEmpty = true) ∨
        ((build_preference_lists
          (scores.filter (fun s => decide (min_score ≤ s.total_score)))
          candidates).2.isEmpty = true)
    · rw [if_pos hpe]
      exact validate_stability_nil scores
    · rw [if_neg hpe]
      generalize hF : scores.filter (fun s => decide (min_score ≤ s.total_score)) = F
      have hFsub : ∀ s2 ∈ F, s2 ∈ scores := by
        intro s2 h2
        rw [← hF] at h2
        exact (List.mem_filter.mp h2).1
      have hFmin : ∀ s2 ∈ F, min_score ≤ s2.total_score := by
        intro s2 h2
        rw [← hF] at h2
        have h3 := (List.mem_filter.mp h2).2
        simpa using h3
      have hFin : ∀ s2 ∈ scores, min_score ≤ s2.total_score → s2 ∈ F := by
        intro s2 h1 h2
        rw [← hF]
        exact List.mem_filter.mpr ⟨h1, by simpa using h2⟩
      have hFval : ∀ s2 ∈ F, s2.total_score = f s2.candidate_a_id s2.candidate_b_id :=
        fun s2 h2 => hval s2 (hFsub s2 h2)
      have hids := result_ids_nodup F candidates hnd
      have hakeysM : akeys (build_preference_lists F candidates).1 =
          akeys (men_of candidates) :=
        akeys_map_keyed (men_of candidates)
          (fun q => build_pref_list F (women_of candidates) q)
      have hndmp : (akeys (build_preference_lists F candidates).1).Nodup := by
        rw [hakeysM]
        exact nodup_akeys_filter candidates _ hnd
      have inv := gs_final_inv (build_preference_lists F candidates).1
        (build_preference_lists F candidates).2 hndmp
      show validate_stability (fsm_result F candidates) scores = true
      have hmd : ∀ x, alookup (match_dict_of (fsm_result F candidates)) x =
          find_partner (fsm_result F candidates) x :=
        fun x => match_dict_lookup _ x hids
      have hback : ∀ x p, find_partner (fsm_result F candidates) x = some p →
          alookup (gale_shapley (build_preference_lists F candidates).1
            (build_preference_lists F candidates).2) x = some p ∨
          alookup (gale_shapley (build_preference_lists F candidates).1
            (build_preference_lists F candidates).2) p = some x := by
        intro x p hx
        rcases find_partner_some_mem _ x p hx with ⟨c, hc⟩ | ⟨c, hc⟩
        · rw [fsm_result, mem_sortDescBy] at hc
          obtain ⟨hmem, -⟩ := (mem_map_triple _
            (fun mw => match_score_of F mw.1 mw.2) x p c).mp hc
          exact Or.inl (alookup_eq_some_of_mem _ _ _ inv.mp_nodup hmem)
        · rw [fsm_result, mem_sortDescBy] at hc
          obtain ⟨hmem, -⟩ := (mem_map_triple _
            (fun mw => match_score_of F mw.1 mw.2) p x c).mp hc
          exact Or.inr (alookup_eq_some_of_mem _ _ _ inv.mp_nodup hmem)
      have hsd_getD : ∀ x y, (alookup (score_dict_of scores) (x, y)).isSome →
          (alookup (score_dict_of scores) (x, y)).getD 0 = f x y := by
        intro x y hsome
        obtain ⟨v, hv⟩ := Option.isSome_iff_exists.mp hsome
        rw [hv]
        exact score_dict_value scores f hfsym hval x y v hv
      rw [validate_stability]
      refine List.all_eq_true.mpr ?_
      intro s hs
      obtain ⟨ca, cb, hca, hcb, hg⟩ := hside s hs
      rw [score_ok]
      cases hA : alookup (match_dict_of (fsm_result F candidates))
          s.candidate_a_id with
      | none =>
        cases hB : alookup (match_dict_of (fsm_result F candidates))
            s.candidate_b_id with
        | none => rfl
        | some pb => rfl
      | some pa =>
        cases hB : alookup (match_dict_of (fsm_result F candidates))
            s.candidate_b_id with
        | none => rfl
        | some pb =>
          simp only []
          by_cases hab : pa = s.candidate_b_id
          · rw [if_pos hab]
          · rw [if_neg hab]
            by_cases hguard : pa ≠ "" ∧ pb ≠ ""
            · rw [if_pos hguard]
              have hfpa : find_partner (fsm_result F candidates)
                  s.candidate_a_id = some pa := by
                rw [← hmd]
                exact hA
              have hfpb : find_partner (fsm_result F candidates)
                  s.candidate_b_id = some pb := by
                rw [← hmd]
                exact hB
              cases hga : ca.gender <;> cases hgb : cb.gender
              · exact absurd (hga.trans hgb.symm) hg
              · -- candidate A is a man, candidate B is a woman
                rcases hback _ _ hfpa with hGSa | hGSpa
                · rcases hback _ _ hfpb with hGSb | hGSpb
                  · exfalso
                    have hmb := (gs_matched_facts F candidates hnd
                      s.candidate_b_id pb hGSb).1
                    have hgb' := gender_of_men_key candidates hnd
                      s.candidate_b_id cb hcb hmb
                    rw [hgb] at hgb'
                    exact absurd hgb' (by decide)
                  · obtain ⟨hamen, hpawomen, s6, hs6F, hs6a, hs6b⟩ :=
                      gs_matched_facts F candidates hnd s.candidate_a_id pa hGSa
                    obtain ⟨hpbmen, hbwomen, s7, hs7F, hs7a, hs7b⟩ :=
                      gs_matched_facts F candidates hnd pb s.candidate_b_id hGSpb
                    have hpres6 := score_dict_present scores s6 (hFsub s6 hs6F)
                    rw [hs6a, hs6b] at hpres6
                    have hpres7 := score_dict_present scores s7 (hFsub s7 hs7F)
                    rw [hs7a, hs7b] at hpres7
                    have hcsa : (alookup (score_dict_of scores)
                        (s.candidate_a_id, pa)).getD 0 = f s.candidate_a_id pa :=
                      hsd_getD _ _ hpres6.1
                    have hcsb : (alookup (score_dict_of scores)
                        (s.candidate_b_id, pb)).getD 0 = f s.candidate_b_id pb :=
                      hsd_getD _ _ hpres7.2
                    rw [hcsa, hcsb, hval s hs]
                    by_cases h1 : f s.candidate_a_id pa <
                        f s.candidate_a_id s.candidate_b_id
                    · have hmin6 : min_score ≤ f s.candidate_a_id pa := by
                        have h6 := hFmin s6 hs6F
                        rw [hFval s6 hs6F, hs6a, hs6b] at h6
                        exact h6
                      have hminb : min_score ≤
                          f s.candidate_a_id s.candidate_b_id :=
                        le_trans hmin6 (le_of_lt h1)
                      have hsF : s ∈ F :=
                        hFin s hs (by rw [hval s hs]; exact hminb)
                      obtain ⟨s2, hs2, h2a, h2b⟩ := hrev s hs
                      have hs2F : s2 ∈ F := by
                        refine hFin s2 hs2 ?_
                        rw [hval s2 hs2, h2a, h2b, hfsym]
                        exact hminb
                      have hwpb : alookup
                          (gs_final (build_preference_lists F candidates).1
                            (build_preference_lists F candidates).2).women_partner
                          s.candidate_b_id = some pb :=
                        (inv.inverse pb s.candidate_b_id).mp hGSpb
                      have hkey := gs_no_blocking F candidates hnd f hFval
                        s.candidate_a_id pa s.candidate_b_id pb hGSa hwpb
                        ⟨s, hsF, rfl, rfl⟩ ⟨s2, hs2F, h2a, h2b⟩ h1
                      have h2 : ¬ f s.candidate_b_id pb <
                          f s.candidate_a_id s.candidate_b_id := by
                        rw [hfsym s.candidate_a_id s.candidate_b_id]
                        exact not_lt.mpr hkey
                      simp [h2]
                    · simp [h1]
                · exfalso
                  have hwa := (gs_matched_facts F candidates hnd pa
                    s.candidate_a_id hGSpa).2.1
                  have hga' := gender_of_women_key candidates hnd
                    s.candidate_a_id ca hca hwa
                  rw [hga] at hga'
                  exact absurd hga' (by decide)
              · -- candidate A is a woman, candidate B is a man
                rcases hback _ _ hfpa with hGSa | hGSpa
                · exfalso
                  have hma := (gs_matched_facts F candidates hnd
                    s.candidate_a_id pa hGSa).1
                  have hga' := gender_of_men_key candidates hnd
                    s.candidate_a_id ca hca hma
                  rw [hga] at hga'
                  exact absurd hga' (by decide)
                · rcases hback _ _ hfpb with hGSb | hGSpb
                  · obtain ⟨hpamen, hawomen, s6, hs6F, hs6a, hs6b⟩ :=
                      gs_matched_facts F candidates hnd pa s.candidate_a_id hGSpa
                    obtain ⟨hbmen, hpbwomen, s7, hs7F, hs7a, hs7b⟩ :=
                      gs_matched_facts F candidates hnd s.candidate_b_id pb hGSb
                    have hpres6 := score_dict_present scores s6 (hFsub s6 hs6F)
                    rw [hs6a, hs6b] at hpres6
                    have hpres7 := score_dict_present scores s7 (hFsub s7 hs7F)
                    rw [hs7a, hs7b] at hpres7
                    have hcsa : (alookup (score_dict_of scores)
                        (s.candidate_a_id, pa)).getD 0 = f s.candidate_a_id pa :=
                      hsd_getD _ _ hpres6.2
                    have hcsb : (alookup (score_dict_of scores)
                        (s.candidate_b_id, pb)).getD 0 = f s.candidate_b_id pb :=
                      hsd_getD _ _ hpres7.1
                    rw [hcsa, hcsb, hval s hs]
                    by_cases h2 : f s.candidate_b_id pb <
                        f s.candidate_a_id s.candidate_b_id
                    · have hmin7 : min_score ≤ f s.candidate_b_id pb := by
                        have h7 := hFmin s7 hs7F
                        rw [hFval s7 hs7F, hs7a, hs7b] at h7
                        exact h7
                      have hminb : min_score ≤
                          f s.candidate_a_id s.candidate_b_id :=
                        le_trans hmin7 (le_of_lt h2)
                      have hsF : s ∈ F :=
                        hFin s hs (by rw [hval s hs]; exact hminb)
                      obtain ⟨s2, hs2, h2a, h2b⟩ := hrev s hs
                      have hs2F : s2 ∈ F := by
                        refine hFin s2 hs2 ?_
                        rw [hval s2 hs2, h2a, h2b, hfsym]
                        exact hminb
                      have hwpa : alookup
                          (gs_final (build_preference_lists F candidates).1
                            (build_preference_lists F candidates).2).women_partner
                          s.candidate_a_id = some pa :=
                        (inv.inverse pa s.candidate_a_id).mp hGSpa
                      have h2' : f s.candidate_b_id pb <
                          f s.candidate_b_id s.candidate_a_id := by
                        rw [hfsym s.candidate_b_id s.candidate_a_id]
                        exact h2
                      have hkey := gs_no_blocking F candidates hnd f hFval
                        s.candidate_b_id pb s.candidate_a_id pa hGSb hwpa
                        ⟨s2, hs2F, h2a, h2b⟩ ⟨s, hsF, rfl, rfl⟩ h2'
                      have h1 : ¬ f s.candidate_a_id pa <
                          f s.candidate_a_id s.candidate_b_id :=
                        not_lt.mpr hkey
                      simp [h1]
                    · simp [h2]
                  · exfalso
                    have hwb := (gs_matched_facts F candidates hnd pb
                      s.candidate_b_id hGSpb).2.1
                    have hgb' := gender_of_women_key candidates hnd
                      s.candidate_b_id cb hcb hwb
                    rw [hgb] at hgb'
                    exact absurd hgb' (by decide)
              · exact absurd (hga.trans hgb.symm) hg
            · rw [if_neg hguard]
def c1w_cands : List (String × Candidate) := [("m1", cand_m), ("w1", cand_w)]

def c1w_scores : List MatchScore :=
  [mk_score "m1" "w1" 2, mk_score "w1" "m1" 2]

/-- Witness for C1 on a concrete two-candidate, symmetrized score set. -/
theorem c1_witness :
    (akeys c1w_cands).Nodup ∧
    validate_stability (find_stable_matches c1w_scores c1w_cands 1) c1w_scores
      = true :=
  ⟨by decide,
   c1_round_trip_stability c1w_scores c1w_cands 1 (fun _ _ => 2)
     (by decide) (fun a b => rfl) (by decide) (by decide)
     (by
       intro s hs
       rcases List.mem_cons.mp hs with h | h
       · subst h
         exact ⟨cand_m, cand_w, rfl, rfl, by decide⟩
       · rcases List.mem_cons.mp h with h2 | h2
         · subst h2
           exact ⟨cand_w, cand_m, rfl, rfl, by decide⟩
         · simp at h2)⟩
end Matchmaking
